import Mathlib

/-!
Verification development for the leoftp one-way file downlink pipeline.

The Rust sources are shallowly embedded: byte streams become `List Nat`
(each element a byte value `< 256`), machine integers become `Nat` / `Int`
with explicit `% 2 ^ w` wrapping where the Rust code relies on wrapping,
fallible operations return `Option` or `Except`, and file-system state is
carried explicitly in structures.  Each definition mirrors one Rust item
and is named after it where Lean permits.
-/

set_option maxRecDepth 10000

/-! ## Byte-level primitives (little/big endian integer codecs) -/

/-- `w`-byte little-endian encoding of `n` (as written by `to_le_bytes`;
the value is reduced modulo `256 ^ w` byte by byte). -/
def natToLE : Nat → Nat → List Nat
  | 0, _ => []
  | w + 1, n => (n % 256) :: natToLE w (n / 256)

/-- Little-endian decoding of a byte list (as read by `from_le_bytes`). -/
def natFromLE : List Nat → Nat
  | [] => 0
  | b :: bs => b + 256 * natFromLE bs

/-- `w`-byte big-endian encoding (as written by `to_be_bytes`). -/
def natToBE (w n : Nat) : List Nat := (natToLE w n).reverse

/-- Big-endian decoding (as read by `from_be_bytes`). -/
def natFromBE (bs : List Nat) : Nat := natFromLE bs.reverse

theorem natToLE_length (w n : Nat) : (natToLE w n).length = w := by
  induction w generalizing n with
  | zero => rfl
  | succ w ih => simp [natToLE, ih]

theorem natToLE_lt (w n : Nat) : ∀ b ∈ natToLE w n, b < 256 := by
  induction w generalizing n with
  | zero => intro b hb; simp [natToLE] at hb
  | succ w ih =>
    intro b hb
    simp only [natToLE, List.mem_cons] at hb
    rcases hb with h | h
    · exact h ▸ Nat.mod_lt _ (by norm_num)
    · exact ih _ b h

theorem natFromLE_natToLE (w n : Nat) (h : n < 256 ^ w) :
    natFromLE (natToLE w n) = n := by
  induction w generalizing n with
  | zero => simp [natToLE, natFromLE]; omega
  | succ w ih =>
    have hdiv : n / 256 < 256 ^ w := by
      rw [Nat.div_lt_iff_lt_mul (by norm_num)]
      calc n < 256 ^ (w + 1) := h
        _ = 256 ^ w * 256 := by ring
    simp [natToLE, natFromLE, ih _ hdiv]
    omega

theorem natToBE_length (w n : Nat) : (natToBE w n).length = w := by
  simp [natToBE, natToLE_length]

theorem natToBE_lt (w n : Nat) : ∀ b ∈ natToBE w n, b < 256 := by
  intro b hb
  exact natToLE_lt w n b (by simpa [natToBE] using hb)

theorem natFromBE_natToBE (w n : Nat) (h : n < 256 ^ w) :
    natFromBE (natToBE w n) = n := by
  simp [natToBE, natFromBE, natFromLE_natToLE w n h]

/-- `w`-byte little-endian encoding of a signed integer
(two's complement, as produced by Rust's `iN::to_le_bytes`). -/
def intToLE (w : Nat) (i : Int) : List Nat :=
  natToLE w (i % (2 ^ (8 * w))).toNat

/-- `w`-byte little-endian decoding of a signed integer
(as read by Rust's `iN::from_le_bytes`). -/
def intFromLE (w : Nat) (bs : List Nat) : Int :=
  let n := natFromLE bs
  if n < 2 ^ (8 * w - 1) then (n : Int) else (n : Int) - 2 ^ (8 * w)

theorem intToLE_length (w : Nat) (i : Int) : (intToLE w i).length = w :=
  natToLE_length _ _

theorem intToLE_lt (w : Nat) (i : Int) : ∀ b ∈ intToLE w i, b < 256 :=
  natToLE_lt _ _

theorem pow_256_eq (w : Nat) : (256 : Nat) ^ w = 2 ^ (8 * w) := by
  calc (256 : Nat) ^ w = (2 ^ 8) ^ w := by norm_num
    _ = 2 ^ (8 * w) := by rw [← pow_mul]

theorem intFromLE_intToLE (w : Nat) (hw : 0 < w) (i : Int)
    (hlo : -(2 ^ (8 * w - 1)) ≤ i) (hhi : i < 2 ^ (8 * w - 1)) :
    intFromLE w (intToLE w i) = i := by
  have key : (2 : Int) ^ (8 * w) = 2 * 2 ^ (8 * w - 1) := by
    conv_lhs => rw [show 8 * w = (8 * w - 1) + 1 from by omega]
    rw [pow_succ]
    ring
  have hMpos : (0 : Int) < 2 ^ (8 * w - 1) := by positivity
  have hNpos : (0 : Int) < 2 ^ (8 * w) := by positivity
  have hmod : (0 : Int) ≤ i % 2 ^ (8 * w) := Int.emod_nonneg i (by omega)
  have hmodlt : i % 2 ^ (8 * w) < 2 ^ (8 * w) := Int.emod_lt_of_pos i hNpos
  have htoNat : ((i % 2 ^ (8 * w)).toNat : Int) = i % 2 ^ (8 * w) :=
    Int.toNat_of_nonneg hmod
  have hcastN : ((256 ^ w : Nat) : Int) = 2 ^ (8 * w) := by
    push_cast [pow_256_eq]
    norm_num
  have hlt : (i % 2 ^ (8 * w)).toNat < 256 ^ w := by omega
  have hMcast : ((2 ^ (8 * w - 1) : Nat) : Int) = 2 ^ (8 * w - 1) := by
    push_cast
    norm_num
  rw [intFromLE, intToLE, natFromLE_natToLE _ _ hlt]
  by_cases hpos : 0 ≤ i
  · have hiN : i % 2 ^ (8 * w) = i := Int.emod_eq_of_lt hpos (by omega)
    rw [if_pos (by omega)]
    omega
  · push_neg at hpos
    have h1 : (i + 2 ^ (8 * w) * 1) % 2 ^ (8 * w) = i % 2 ^ (8 * w) :=
      Int.add_mul_emod_self_left i (2 ^ (8 * w)) 1
    rw [mul_one] at h1
    have h2 : (i + 2 ^ (8 * w)) % 2 ^ (8 * w) = i + 2 ^ (8 * w) :=
      Int.emod_eq_of_lt (by omega) (by omega)
    have hiN : i % 2 ^ (8 * w) = i + 2 ^ (8 * w) := by omega
    rw [if_neg (by omega)]
    omega

/-- Read exactly `n` bytes from the front of a stream
(models `read_exact`; `none` is `UnexpectedEof`). -/
def readBytesN (n : Nat) (s : List Nat) : Option (List Nat × List Nat) :=
  if n ≤ s.length then some (s.take n, s.drop n) else none

theorem readBytesN_append (xs rest : List Nat) :
    readBytesN xs.length (xs ++ rest) = some (xs, rest) := by
  simp [readBytesN]

instance {ε α : Type} [DecidableEq ε] [DecidableEq α] :
    DecidableEq (Except ε α) := fun x y =>
  match x, y with
  | .ok a, .ok b =>
    if h : a = b then .isTrue (by rw [h]) else .isFalse (by simp [h])
  | .error a, .error b =>
    if h : a = b then .isTrue (by rw [h]) else .isFalse (by simp [h])
  | .ok _, .error _ => .isFalse (by simp)
  | .error _, .ok _ => .isFalse (by simp)

/-! ## `FilePartId` (src/common/src/file_part_id.rs) -/

/-- `FilePartId`: `Header | Part(u32)`. -/
inductive FilePartId where
  | Header : FilePartId
  | Part : Nat → FilePartId
  deriving DecidableEq, Repr

/-- The `u32` bound on `Part` indices (and well-formedness of a part id). -/
def FilePartId.wf : FilePartId → Prop
  | .Header => True
  | .Part i => i < 4294967296

instance : DecidablePred FilePartId.wf := by
  intro p
  cases p with
  | Header => exact .isTrue trivial
  | Part i => exact inferInstanceAs (Decidable (i < 4294967296))

/-- `FilePartId::to_index`: `Header ↦ u32::MAX`, `Part(i) ↦ i`. -/
def FilePartId.to_index : FilePartId → Nat
  | .Header => 4294967295
  | .Part i => i

/-- `FilePartId::from_index`: `u32::MAX ↦ Header`, otherwise `Part(i)`. -/
def FilePartId.from_index (i : Nat) : FilePartId :=
  if i = 4294967295 then .Header else .Part i

/-- `FilePartId::is_valid`: `Part(i)` must not be `u32::MAX`. -/
def FilePartId.is_valid : FilePartId → Bool
  | .Header => true
  | .Part i => i != 4294967295

/-- The `Ord` instance on `FilePartId` as a boolean `≤`:
`Header` is the minimum, parts compare by index. -/
def FilePartId.le : FilePartId → FilePartId → Bool
  | .Header, _ => true
  | .Part _, .Header => false
  | .Part i, .Part j => i ≤ j

/-- The `Ord` instance on `FilePartId` as a three-way comparison. -/
def FilePartId.cmp : FilePartId → FilePartId → Ordering
  | .Header, .Header => .eq
  | .Header, .Part _ => .lt
  | .Part _, .Header => .gt
  | .Part i, .Part j => compare i j

theorem FilePartId.le_refl (p : FilePartId) : p.le p = true := by
  cases p <;> simp [FilePartId.le]

theorem FilePartId.le_trans {a b c : FilePartId}
    (h1 : a.le b = true) (h2 : b.le c = true) : a.le c = true := by
  cases a <;> cases b <;> cases c <;> simp_all [FilePartId.le] <;> omega

theorem FilePartId.le_antisymm {a b : FilePartId}
    (h1 : a.le b = true) (h2 : b.le a = true) : a = b := by
  cases a <;> cases b <;> simp_all [FilePartId.le] <;> omega

theorem FilePartId.le_total (a b : FilePartId) :
    a.le b = true ∨ b.le a = true := by
  cases a <;> cases b <;> simp [FilePartId.le] <;> omega

/-- `FilePartIdRangeInclusive`: an inclusive range of part ids. -/
structure FilePartIdRangeInclusive where
  «from» : FilePartId
  «to» : FilePartId
  deriving DecidableEq, Repr

namespace FilePartIdRangeInclusive

/-- `FilePartIdRangeInclusive::new`, with the `assert!(from <= to)`
modelled as returning `none` (panic) when the assertion fails. -/
def new (f t : FilePartId) : Option FilePartIdRangeInclusive :=
  if f.le t then some ⟨f, t⟩ else none

/-- `FilePartIdRangeInclusive::new_single` (no assertion in the source). -/
def new_single (id : FilePartId) : FilePartIdRangeInclusive := ⟨id, id⟩

/-- `FilePartIdRangeInclusive::contains`. -/
def contains (r : FilePartIdRangeInclusive) (id : FilePartId) : Bool :=
  r.«from».le id && id.le r.«to»

/-- `FilePartIdRangeInclusive::iter_parts`: `Header` first when in range,
then `Part(i)` for `i` in the half-open index interval. -/
def iter_parts (r : FilePartIdRangeInclusive) : List FilePartId :=
  let header_iter : List FilePartId :=
    if r.«from» = .Header then [.Header] else []
  let remaining_iter_start : Nat :=
    match r.«from» with
    | .Part i => i
    | .Header => 0
  let remaining_iter_end : Nat :=
    match r.«to» with
    | .Part i => i + 1
    | .Header => 0
  header_iter ++
    (List.range' remaining_iter_start
      (remaining_iter_end - remaining_iter_start)).map FilePartId.Part

/-- `BinarySerialize::serialize_to_stream` for `FilePartIdRangeInclusive`:
two big-endian `u32` encoded part indices. -/
def serialize_to_stream (r : FilePartIdRangeInclusive) : List Nat :=
  natToBE 4 r.«from».to_index ++ natToBE 4 r.«to».to_index

/-- `BinarySerialize::deserialize_from_stream` for
`FilePartIdRangeInclusive`: reads two big-endian `u32` values and decodes
them with `from_index`; the source performs no `from ≤ to` check. -/
def deserialize_from_stream (s : List Nat) :
    Option (FilePartIdRangeInclusive × List Nat) :=
  (readBytesN 4 s).bind fun p1 =>
  (readBytesN 4 p1.2).bind fun p2 =>
  some (⟨FilePartId.from_index (natFromBE p1.1),
         FilePartId.from_index (natFromBE p2.1)⟩, p2.2)

/-- `ValidityCheck` for `FilePartIdRangeInclusive`.
Modelled from the spec: the implementation of `is_valid` for ranges is not
under `src/` (only its caller `ConfirmPart::is_valid` is); the spec states
`{from, to}` with `from ≤ to` and that part ids themselves must be valid. -/
def is_valid (r : FilePartIdRangeInclusive) : Bool :=
  r.«from».is_valid && r.«to».is_valid && r.«from».le r.«to»

end FilePartIdRangeInclusive

/-! ## Claims C7 and C8 -/

theorem from_index_to_index (p : FilePartId) (h : p.is_valid = true) :
    FilePartId.from_index p.to_index = p := by
  cases p with
  | Header => rfl
  | Part i =>
    simp only [FilePartId.is_valid, bne_iff_ne, ne_eq] at h
    simp [FilePartId.from_index, FilePartId.to_index, h]

/-- C7 counterexample: the wire encoding in `file_part_id.rs` maps
`Header` to `u32::MAX` (not `0`) and `Part(5)` to `5` (not `6`). -/
theorem c7_counterexample :
    FilePartId.to_index .Header ≠ 0 ∧
    FilePartId.to_index (.Part 5) ≠ 5 + 1 := by
  constructor
  · decide
  · decide

/-- C7 (amended): the 32-bit encoding used in state files, scheduling and
confirmation ranges maps `Header` to `u32::MAX = 4294967295` and `Part(i)`
to `i`; `Header` is nevertheless least in the `FilePartId` order used for
sorting; and decoding inverts encoding on every valid part id. -/
theorem c7_encoding_amended :
    FilePartId.to_index .Header = 4294967295 ∧
    (∀ i : Nat, FilePartId.to_index (.Part i) = i) ∧
    (∀ p : FilePartId, FilePartId.le .Header p = true) ∧
    (∀ p : FilePartId, p.is_valid = true →
      FilePartId.from_index p.to_index = p) := by
  refine ⟨rfl, fun i => rfl, fun p => rfl, fun p h => from_index_to_index p h⟩

/-- C7 witness: the amended statement applied at concrete part ids. -/
theorem c7_encoding_amended_witness :
    FilePartId.from_index (FilePartId.to_index (.Part 7)) = .Part 7 :=
  c7_encoding_amended.2.2.2 (.Part 7) (by decide)

/-- C8 counterexample: deserializing a `ConfirmPart` part range from the
byte stream performs no ordering check, so the bytes encoding
`from = Part(5), to = Part(2)` deserialize successfully into a range with
`from > to`, refuting the claim that every deserialized `part_range`
satisfies `from ≤ to`. -/
theorem c8_counterexample :
    FilePartIdRangeInclusive.deserialize_from_stream
        [0, 0, 0, 5, 0, 0, 0, 2] =
      some (⟨.Part 5, .Part 2⟩, []) ∧
    (FilePartId.le (.Part 5) (.Part 2)) = false := by
  constructor
  · rfl
  · decide

/-- C8 (amended): the constructor `FilePartIdRangeInclusive::new` enforces
`from ≤ to` (any range it returns satisfies it, and it fails otherwise),
but ranges obtained by deserializing a `ConfirmPart` from the byte stream
are not checked and may violate `from ≤ to`. -/
theorem c8_range_invariant_amended :
    (∀ f t r, FilePartIdRangeInclusive.new f t = some r →
      r.«from».le r.«to» = true ∧ r = ⟨f, t⟩) ∧
    (∀ f t, FilePartIdRangeInclusive.new f t = none ↔ f.le t = false) ∧
    (∃ bytes r,
      FilePartIdRangeInclusive.deserialize_from_stream bytes =
        some (r, []) ∧ r.«from».le r.«to» = false) := by
  refine ⟨fun f t r h => ?_, fun f t => ?_, ?_⟩
  · unfold FilePartIdRangeInclusive.new at h
    by_cases hle : f.le t
    · simp only [hle, if_true] at h
      cases h
      exact ⟨hle, rfl⟩
    · simp [hle] at h
  · unfold FilePartIdRangeInclusive.new
    by_cases hle : f.le t
    · simp [hle]
    · simp [hle]
  · exact ⟨[0, 0, 0, 5, 0, 0, 0, 2], ⟨.Part 5, .Part 2⟩, by decide⟩

/-- C8 witness: the amended statement applied at a concrete range. -/
theorem c8_range_invariant_amended_witness :
    FilePartIdRangeInclusive.new (.Part 1) (.Part 3) =
      some ⟨.Part 1, .Part 3⟩ ∧
    (FilePartId.le (.Part 1) (.Part 3)) = true :=
  ⟨by decide,
   (c8_range_invariant_amended.1 (.Part 1) (.Part 3) ⟨.Part 1, .Part 3⟩
     (by decide)).1⟩

/-! ## Sender managed file (src/sender/src/new/managed_file.rs and
src/sender/src/managed_file/state.rs)

On-disk state is carried explicitly: `dataBin` is the contents of
`data.bin` (contiguous mode), `dataFolder` maps a part index `N` to the
contents of `data/N.bin` (split mode).  File-system errors are out of
scope; the atomic-write helpers always succeed in the model. -/

namespace Sender

/-- A 128-bit file id (`uuid::Uuid`), as its 16 raw bytes. -/
structure Uuid where
  bytes : List Nat
  deriving DecidableEq, Repr

/-- The header chunk revision used by the sender's managed files.
Modelled from the spec: the `HeaderChunk` struct with a `file_part_size`
field is not under `src/` (the copy in `src/common/src/chunks.rs` predates
it, while `src/sender/src/new/managed_file.rs` constructs and reads
`header.file_part_size`); fields follow spec §3.2. -/
structure HeaderChunk where
  id : Uuid
  name : List Nat
  date : Int
  part_count : Nat
  size : Nat
  file_part_size : Nat
  deriving DecidableEq, Repr

/-- `DataChunk` as used by the sender (`file_id`, part index, raw bytes). -/
structure DataChunk where
  file_id : Uuid
  part : Nat
  data : List Nat
  deriving DecidableEq, Repr

/-- `Chunk = Header(HeaderChunk) | Data(DataChunk)`. -/
inductive Chunk where
  | Header : HeaderChunk → Chunk
  | Data : DataChunk → Chunk
  deriving DecidableEq, Repr

/-- `ManagedFileMode` (src/sender/src/managed_file/mode.rs). -/
inductive ManagedFileMode where
  | Contiguous : ManagedFileMode
  | Split : ManagedFileMode
  deriving DecidableEq, Repr

/-- `ManagedFileStatePart`: one `state.bin` record. -/
structure ManagedFileStatePart where
  part : FilePartId
  priority : Int
  deriving DecidableEq, Repr

/-- `serialize_part_to_stream` (state.rs): `u32` LE part index then
`i16` LE priority — 6 bytes per record. -/
def serialize_part_to_stream (p : ManagedFileStatePart) : List Nat :=
  natToLE 4 p.part.to_index ++ intToLE 2 p.priority

/-- `ManagedFileState::new_from_part_count`: `Header` first, then
`Part(0) … Part(part_count-1)`, all with priority 0. -/
def new_from_part_count (part_count : Nat) : List ManagedFileStatePart :=
  ⟨.Header, 0⟩ :: (List.range part_count).map (fun i => ⟨.Part i, 0⟩)

/-- `ManagedFile` with its on-disk state carried explicitly. -/
structure ManagedFile where
  header : HeaderChunk
  mode : ManagedFileMode
  state : List ManagedFileStatePart
  dataBin : List Nat
  dataFolder : List (Nat × List Nat)
  deriving DecidableEq, Repr

namespace ManagedFile

/-- `ManagedFileState::filter_remaining_parts` (`Vec::retain`). -/
def filter_remaining_parts (st : List ManagedFileStatePart)
    (pred : ManagedFileStatePart → Bool) : List ManagedFileStatePart :=
  st.filter pred

/-- The `last_unacknowledged_part` loop inside
`acknowledge_file_parts` (Contiguous branch): the maximum remaining
`Part` index, `none` when no `Part` remains. -/
def last_unacknowledged_part (st : List ManagedFileStatePart) :
    Option Nat :=
  st.foldl
    (fun acc p =>
      match p.part with
      | .Header => acc
      | .Part i =>
        match acc with
        | some last => if i > last then some i else some last
        | none => some i)
    none

/-- The `result_len` computation inside `acknowledge_file_parts`
(Contiguous branch): `(last + 1) * file_part_size` when a `Part`
remains, `0` otherwise. -/
def result_len (file_part_size : Nat) (st : List ManagedFileStatePart) :
    Nat :=
  match last_unacknowledged_part st with
  | some last => (last + 1) * file_part_size
  | none => 0

/-- `ManagedFile::acknowledge_file_parts`: drop every state entry whose
part lies in `part_range`, then shrink the on-disk data (truncate
`data.bin` in Contiguous mode, delete acknowledged `data/N.bin` files in
Split mode). -/
def acknowledge_file_parts (mf : ManagedFile)
    (part_range : FilePartIdRangeInclusive) : ManagedFile :=
  let st := filter_remaining_parts mf.state
    (fun p => !(part_range.contains p.part))
  match mf.mode with
  | .Contiguous =>
    let rl := result_len mf.header.file_part_size st
    let dataBin :=
      if mf.dataBin.length > rl then mf.dataBin.take rl
      else mf.dataBin
    { mf with state := st, dataBin := dataBin }
  | .Split =>
    let dataFolder :=
      part_range.iter_parts.foldl
        (fun acc part =>
          match part with
          | .Header => acc
          | .Part i => acc.filter (fun e => e.1 ≠ i))
        mf.dataFolder
    { mf with state := st, dataFolder := dataFolder }

/-- `ManagedFile::get_file_part`: header requests return the header
chunk; out-of-range part indices are an error; parts absent from the
state vector return `none`; otherwise the part's bytes are read from
`data.bin` (clipped substream) or `data/N.bin`. -/
def get_file_part (mf : ManagedFile) (part : FilePartId) :
    Except String (Option Chunk) :=
  match part with
  | .Header => .ok (some (.Header mf.header))
  | .Part part_id =>
    if part_id ≥ mf.header.part_count then
      .error "Part index out of bounds"
    else if !(mf.state.any (fun p => p.part == .Part part_id)) then
      .ok none
    else
      match mf.mode with
      | .Contiguous =>
        let part_size := mf.header.file_part_size
        let offset := part_id * part_size
        let data := ((mf.dataBin.drop offset).take part_size)
        .ok (some (.Data ⟨mf.header.id, part_id, data⟩))
      | .Split =>
        match mf.dataFolder.find? (fun e => e.1 == part_id) with
        | some e => .ok (some (.Data ⟨mf.header.id, part_id, e.2⟩))
        | none => .error "No such file or directory"

/-- `ManagedFile::is_finished`. -/
def is_finished (mf : ManagedFile) : Bool := mf.state.isEmpty

end ManagedFile

end Sender

/-! ## Claims C2, C3, C10 -/

/-- Every `Part(i)` yielded by `iter_parts` is contained in the range. -/
theorem mem_iter_parts_contains (r : FilePartIdRangeInclusive) (i : Nat)
    (h : FilePartId.Part i ∈ r.iter_parts) :
    r.contains (.Part i) = true := by
  rcases r with ⟨f, t⟩
  cases f <;> cases t <;>
    simp [FilePartIdRangeInclusive.iter_parts,
      FilePartIdRangeInclusive.contains, FilePartId.le,
      List.mem_range'] at h ⊢ <;> omega

/-- The split-mode deletion loop of `acknowledge_file_parts` leaves the
data folder unchanged when no folder entry's part lies in the iterated
range. -/
theorem foldl_delete_noop (parts : List FilePartId)
    (l : List (Nat × List Nat))
    (h : ∀ i, FilePartId.Part i ∈ parts → ∀ e ∈ l, e.1 ≠ i) :
    parts.foldl
      (fun acc part =>
        match part with
        | .Header => acc
        | .Part i => acc.filter (fun e => e.1 ≠ i))
      l = l := by
  induction parts with
  | nil => rfl
  | cons p rest ih =>
    cases p with
    | Header =>
      exact ih (fun i hi e he => h i (List.mem_cons_of_mem _ hi) e he)
    | Part i =>
      have hfix : l.filter (fun e => decide (e.1 ≠ i)) = l := by
        apply List.filter_eq_self.mpr
        intro e he
        simpa using h i (List.mem_cons_self _ _) e he
      simp only [List.foldl_cons]
      rw [show (l.filter (fun e => e.1 ≠ i)) = l from hfix]
      exact ih (fun j hj e he => h j (List.mem_cons_of_mem _ hj) e he)

/-- In both modes, acknowledging filters the state vector by range
membership of the part. -/
theorem ack_state_eq (mf : Sender.ManagedFile)
    (r : FilePartIdRangeInclusive) :
    (mf.acknowledge_file_parts r).state =
      mf.state.filter (fun p => !(r.contains p.part)) := by
  unfold Sender.ManagedFile.acknowledge_file_parts
  cases mf.mode <;> simp [Sender.ManagedFile.filter_remaining_parts]

/-- A concrete managed file: 95-byte file, `file_part_size = 10`,
`part_count = 10` (the last part is 5 bytes short). -/
def exampleManagedFile : Sender.ManagedFile :=
  { header :=
      { id := ⟨List.replicate 16 0⟩, name := [], date := 0,
        part_count := 10, size := 95, file_part_size := 10 }
    mode := .Contiguous
    state := Sender.new_from_part_count 10
    dataBin := List.replicate 95 0
    dataFolder := [] }

/-- C2 counterexample: on a 95-byte contiguous file with
`file_part_size = 10`, acknowledging `Part(0)` leaves `Part(9)` as the
maximum remaining part, so the claim predicts `data.bin` length
`(9 + 1) * 10 = 100`; the code leaves it at 95 (`set_len` only ever
shrinks). -/
theorem c2_counterexample :
    Sender.ManagedFile.last_unacknowledged_part
      ((exampleManagedFile.acknowledge_file_parts
        (FilePartIdRangeInclusive.new_single (.Part 0))).state) = some 9 ∧
    (exampleManagedFile.acknowledge_file_parts
      (FilePartIdRangeInclusive.new_single (.Part 0))).dataBin.length
      = 95 ∧
    (9 + 1) * exampleManagedFile.header.file_part_size = 100 := by
  refine ⟨by decide, by decide, by decide⟩

/-- C2 (amended): in Contiguous mode, `acknowledge_file_parts(range)`
removes exactly the state entries whose part lies in the range, and
afterwards `data.bin`'s length is the *minimum* of its previous length
and `(max remaining Part index + 1) * file_part_size` (`0` when no
`Part` remains): the file is truncated only when longer, never grown.
`Header` entries do not affect the length. -/
theorem c2_acknowledge_contiguous_amended (mf : Sender.ManagedFile)
    (r : FilePartIdRangeInclusive) (hmode : mf.mode = .Contiguous) :
    (mf.acknowledge_file_parts r).state =
      mf.state.filter (fun p => !(r.contains p.part)) ∧
    (mf.acknowledge_file_parts r).dataBin.length =
      min mf.dataBin.length
        (Sender.ManagedFile.result_len mf.header.file_part_size
          ((mf.acknowledge_file_parts r).state)) := by
  refine ⟨ack_state_eq mf r, ?_⟩
  rw [ack_state_eq mf r]
  unfold Sender.ManagedFile.acknowledge_file_parts
  rw [hmode]
  simp only [Sender.ManagedFile.filter_remaining_parts]
  by_cases hlen :
      mf.dataBin.length >
        Sender.ManagedFile.result_len mf.header.file_part_size
          (mf.state.filter (fun p => !(r.contains p.part)))
  · simp [hlen, List.length_take]
    omega
  · simp [hlen]
    omega

/-- C2 witness: the amended statement applied to the concrete 95-byte
file and the range `Part(0)..=Part(0)`. -/
theorem c2_acknowledge_contiguous_amended_witness :
    (exampleManagedFile.acknowledge_file_parts
        (FilePartIdRangeInclusive.new_single (.Part 0))).state =
      exampleManagedFile.state.filter
        (fun p =>
          !((FilePartIdRangeInclusive.new_single (.Part 0)).contains
            p.part)) ∧
    (exampleManagedFile.acknowledge_file_parts
        (FilePartIdRangeInclusive.new_single (.Part 0))).dataBin.length =
      min exampleManagedFile.dataBin.length
        (Sender.ManagedFile.result_len
          exampleManagedFile.header.file_part_size
          ((exampleManagedFile.acknowledge_file_parts
            (FilePartIdRangeInclusive.new_single (.Part 0))).state)) :=
  c2_acknowledge_contiguous_amended exampleManagedFile
    (FilePartIdRangeInclusive.new_single (.Part 0)) rfl

/-- C3 counterexample: acknowledging a range that contains no remaining
part (here `Part(20)..=Part(20)` on a file whose parts are
`Header, Part(0), …, Part(9)`) leaves the state vector — and hence the
set of remaining parts — unchanged, refuting "the set of remaining
parts strictly decreases with each call". -/
theorem c3_counterexample :
    (exampleManagedFile.acknowledge_file_parts
        (FilePartIdRangeInclusive.new_single (.Part 20))).state =
      exampleManagedFile.state ∧
    exampleManagedFile.state ≠ [] := by
  refine ⟨by decide, by decide⟩

/-- C3 (amended): acknowledgement never adds parts (the new state vector
is a sublist of the old and remaining part ids only shrink); it removes
a part exactly when the range contains a remaining part (strict decrease
in that case); and a call whose range contains no remaining part is a
no-op — on the state vector always, and on the on-disk data under the
managed-file layout invariants (`data.bin` no longer than
`(max remaining part + 1) * file_part_size` in Contiguous mode; every
`data/N.bin` backed by a state entry in Split mode). -/
theorem c3_ack_monotone_amended :
    (∀ (mf : Sender.ManagedFile) (r : FilePartIdRangeInclusive),
      ((mf.acknowledge_file_parts r).state).Sublist mf.state) ∧
    (∀ (mf : Sender.ManagedFile) (r : FilePartIdRangeInclusive)
        (q : FilePartId),
      q ∈ (mf.acknowledge_file_parts r).state.map (·.part) →
      q ∈ mf.state.map (·.part)) ∧
    (∀ (mf : Sender.ManagedFile) (r : FilePartIdRangeInclusive),
      (∃ p ∈ mf.state, r.contains p.part = true) →
      ∃ q, q ∈ mf.state.map (·.part) ∧
        q ∉ (mf.acknowledge_file_parts r).state.map (·.part)) ∧
    (∀ (mf : Sender.ManagedFile) (r : FilePartIdRangeInclusive),
      (∀ p ∈ mf.state, r.contains p.part = false) →
      (mf.acknowledge_file_parts r).state = mf.state ∧
      (mf.mode = .Contiguous →
        mf.dataBin.length ≤
          Sender.ManagedFile.result_len mf.header.file_part_size
            mf.state →
        mf.acknowledge_file_parts r = mf) ∧
      (mf.mode = .Split →
        (∀ e ∈ mf.dataFolder, ∃ p ∈ mf.state, p.part = .Part e.1) →
        mf.acknowledge_file_parts r = mf)) := by
  have hstate := ack_state_eq
  have hnoop : ∀ (mf : Sender.ManagedFile) (r : FilePartIdRangeInclusive),
      (∀ p ∈ mf.state, r.contains p.part = false) →
      mf.state.filter (fun p => !(r.contains p.part)) = mf.state := by
    intro mf r h
    apply List.filter_eq_self.mpr
    intro p hp
    simp [h p hp]
  refine ⟨?_, ?_, ?_, ?_⟩
  · intro mf r
    rw [hstate]
    exact List.filter_sublist _
  · intro mf r q hq
    rw [hstate] at hq
    simp only [List.mem_map] at hq ⊢
    obtain ⟨p, hp, hpq⟩ := hq
    exact ⟨p, (List.mem_filter.mp hp).1, hpq⟩
  · intro mf r ⟨p, hp, hcont⟩
    refine ⟨p.part, List.mem_map_of_mem _ hp, ?_⟩
    rw [hstate]
    simp only [List.mem_map, not_exists]
    rintro q ⟨hq, hqp⟩
    have := (List.mem_filter.mp hq).2
    rw [hqp] at this
    simp [hcont] at this
  · intro mf r h
    refine ⟨by rw [hstate]; exact hnoop mf r h, ?_, ?_⟩
    · intro hmode hlen
      rcases mf with ⟨hd, mode, st, db, df⟩
      simp only at hmode
      subst hmode
      unfold Sender.ManagedFile.acknowledge_file_parts
      simp only [Sender.ManagedFile.filter_remaining_parts]
      rw [hnoop _ r h]
      simp only at hlen ⊢
      rw [if_neg (by omega)]
    · intro hmode hkeys
      rcases mf with ⟨hd, mode, st, db, df⟩
      simp only at hmode
      subst hmode
      unfold Sender.ManagedFile.acknowledge_file_parts
      simp only [Sender.ManagedFile.filter_remaining_parts]
      rw [hnoop _ r h]
      rw [foldl_delete_noop _ _ ?_]
      intro i hi e he
      obtain ⟨p, hp, hpe⟩ := hkeys e he
      intro hei
      have hc := h p hp
      rw [hpe, hei] at hc
      rw [mem_iter_parts_contains r i hi] at hc
      exact absurd hc (by simp)

/-- C3 witness: the amended statement applied to the concrete file, with
the strict-decrease hypothesis discharged for `Part(0)..=Part(0)` and
the no-op hypothesis discharged for `Part(20)..=Part(20)`. -/
theorem c3_ack_monotone_amended_witness :
    (∃ q, q ∈ exampleManagedFile.state.map (·.part) ∧
      q ∉ (exampleManagedFile.acknowledge_file_parts
        (FilePartIdRangeInclusive.new_single (.Part 0))).state.map
          (·.part)) ∧
    (exampleManagedFile.acknowledge_file_parts
        (FilePartIdRangeInclusive.new_single (.Part 20))).state =
      exampleManagedFile.state :=
  ⟨c3_ack_monotone_amended.2.2.1 exampleManagedFile
      (FilePartIdRangeInclusive.new_single (.Part 0))
      ⟨⟨.Part 0, 0⟩, by decide, by decide⟩,
   (c3_ack_monotone_amended.2.2.2 exampleManagedFile
      (FilePartIdRangeInclusive.new_single (.Part 20))
      (by decide)).1⟩

/-- C10: `get_file_part(Part(i))` with `i ≥ part_count` is the
"Part index out of bounds" error (not `None`); `None` is returned
exactly for an in-range part absent from the state vector; and
`get_file_part(Header)` always returns the header chunk. -/
theorem c10_get_file_part (mf : Sender.ManagedFile) :
    (∀ i, i ≥ mf.header.part_count →
      mf.get_file_part (.Part i) = .error "Part index out of bounds") ∧
    (mf.get_file_part .Header = .ok (some (.Header mf.header))) ∧
    (∀ i, mf.get_file_part (.Part i) = .ok none ↔
      i < mf.header.part_count ∧ ∀ p ∈ mf.state, p.part ≠ .Part i) := by
  refine ⟨?_, rfl, ?_⟩
  · intro i hi
    simp only [Sender.ManagedFile.get_file_part]
    rw [if_pos hi]
  · intro i
    simp only [Sender.ManagedFile.get_file_part]
    by_cases hi : i ≥ mf.header.part_count
    · rw [if_pos hi]
      constructor
      · intro h
        exact absurd h (by simp)
      · intro ⟨h, _⟩
        omega
    · rw [if_neg hi]
      by_cases habs : mf.state.any (fun p => p.part == .Part i)
      · rw [habs]
        simp only [Bool.not_true, Bool.false_eq_true, if_false]
        constructor
        · intro h
          cases hm : mf.mode <;> rw [hm] at h
          · exact absurd h (by simp)
          · cases hf : mf.dataFolder.find? (fun e => e.1 == i) <;>
              rw [hf] at h <;> exact absurd h (by simp)
        · intro ⟨_, hnone⟩
          simp only [List.any_eq_true, beq_iff_eq] at habs
          obtain ⟨p, hp, hpi⟩ := habs
          exact absurd hpi (hnone p hp)
      · rw [eq_false_of_ne_true habs]
        simp only [Bool.not_false, if_true]
        constructor
        · intro _
          refine ⟨by omega, ?_⟩
          intro p hp hpi
          exact habs (List.any_eq_true.mpr ⟨p, hp, by simp [hpi]⟩)
        · intro _
          trivial

/-- C10 witness: the theorem applied to the concrete file at an
out-of-range index and at the header. -/
theorem c10_get_file_part_witness :
    exampleManagedFile.get_file_part (.Part 99) =
      .error "Part index out of bounds" ∧
    exampleManagedFile.get_file_part .Header =
      .ok (some (.Header exampleManagedFile.header)) :=
  ⟨(c10_get_file_part exampleManagedFile).1 99 (by decide),
   (c10_get_file_part exampleManagedFile).2.1⟩

/-! ## Scheduling order and downlink session
(src/common/src/file_sending/storage_manager.rs,
src/sender/src/downlink_session.rs)

`ManagedSendingFile` itself is not under `src/` (only its `mode`
submodule and its callers are); its state and `get_file_part` are
modelled by `Sender.ManagedFile`, whose code is under
src/sender/src/new/managed_file.rs and matches the spec §4.D contract
used by the session. -/

/-- `StorageFilePart`: one snapshot item `(file_id, part_id, priority)`. -/
structure StorageFilePart where
  file_id : Sender.Uuid
  part_id : FilePartId
  priority : Int
  deriving DecidableEq, Repr

/-- `cmp_file_storage_part_normal`: priority first (higher = Greater),
then `Header` above any `Part`, then the part number (higher = Greater). -/
def cmp_file_storage_part_normal (a b : StorageFilePart) : Ordering :=
  if a.priority > b.priority then .gt
  else if a.priority < b.priority then .lt
  else
    let a_header := a.part_id == FilePartId.Header
    let b_header := b.part_id == FilePartId.Header
    if a_header && !b_header then .gt
    else if !a_header && b_header then .lt
    else
      let a_part :=
        match a.part_id with
        | .Part part => part
        | .Header => 0
      let b_part :=
        match b.part_id with
        | .Part part => part
        | .Header => 0
      compare a_part b_part

/-- `SendingStorageManager` restricted to what the session uses: the
owned map from file id to managed file. -/
structure SendingStorageManager where
  files : List (Sender.Uuid × Sender.ManagedFile)
  deriving DecidableEq, Repr

namespace SendingStorageManager

/-- `StorageManager::get_file`. -/
def get_file (sm : SendingStorageManager) (file_id : Sender.Uuid) :
    Option Sender.ManagedFile :=
  (sm.files.find? (fun e => e.1 == file_id)).map (·.2)

/-- `StorageManager::iter_remaining_storage_file_parts`: every
`(file_id, part, priority)` triple across all files. -/
def iter_remaining_storage_file_parts (sm : SendingStorageManager) :
    List StorageFilePart :=
  (sm.files.map (fun e =>
    e.2.state.map (fun p => ⟨e.2.header.id, p.part, p.priority⟩))).flatten

end SendingStorageManager

/-- The order in which the session queue is laid out: `x` may precede
`y` when the comparator `cmp_file_storage_part_normal (y) (x)` passed to
`sort_unstable_by` does not call `x` greater — i.e. descending
`cmp_file_storage_part_normal` order. -/
def queue_le (x y : StorageFilePart) : Prop :=
  cmp_file_storage_part_normal y x ≠ .gt

instance : DecidableRel queue_le := fun x y =>
  inferInstanceAs (Decidable (cmp_file_storage_part_normal y x ≠ .gt))

/-- `DownlinkSession` (cyclic snapshot queue revision). -/
structure DownlinkSession where
  storage : SendingStorageManager
  parts_queue : List StorageFilePart
  parts_queue_index : Nat
  deriving DecidableEq, Repr

namespace DownlinkSession

/-- `DownlinkSession::new`: snapshot all parts and sort them with
`sort_unstable_by(|a, b| cmp_file_storage_part_normal(b, a))` — highest
first.  Rust's `sort_unstable_by` contract (a permutation that is
pairwise ordered by the comparator) is modelled by `insertionSort` over
`queue_le`. -/
def new (storage : SendingStorageManager) : DownlinkSession :=
  { storage := storage
    parts_queue :=
      List.insertionSort queue_le
        storage.iter_remaining_storage_file_parts
    parts_queue_index := 0 }

/-- `DownlinkSession::next_item`: pop the item at the cursor and advance
it, wrapping to 0 past the end.  (The source indexes the vector
directly; the cursor is always in bounds, so the `getD` default is never
used.) -/
def next_item (s : DownlinkSession) :
    Option (StorageFilePart × DownlinkSession) :=
  if s.parts_queue.isEmpty then none
  else
    let item := s.parts_queue.getD s.parts_queue_index
      ⟨⟨[]⟩, .Header, 0⟩
    let idx := s.parts_queue_index + 1
    let idx := if idx ≥ s.parts_queue.length then 0 else idx
    some (item, { s with parts_queue_index := idx })

/-- The loop body of `DownlinkSession::next_chunk`, with fuel bounding
the number of iterations (the loop visits each queue position at most
once before the wrap-around check fires, so `queue length + 1` fuel is
always enough). -/
def next_chunk_loop :
    Nat → DownlinkSession → Nat → Option Sender.Chunk × DownlinkSession
  | 0, s, _ => (none, s)
  | fuel + 1, s, start_index =>
    match next_item s with
    | none => (none, s)
    | some (item, s) =>
      if s.parts_queue_index == start_index then (none, s)
      else
        match s.storage.get_file item.file_id with
        | none => next_chunk_loop fuel s start_index
        | some file =>
          match file.get_file_part item.part_id with
          | .ok none => next_chunk_loop fuel s start_index
          | .ok (some chunk) => (some chunk, s)
          | .error _ => next_chunk_loop fuel s start_index

/-- `DownlinkSession::next_chunk`. -/
def next_chunk (s : DownlinkSession) :
    Option Sender.Chunk × DownlinkSession :=
  next_chunk_loop (s.parts_queue.length + 1) s s.parts_queue_index

end DownlinkSession

/-! ## Claims C4 and C5 -/

/-- Rank of the header flag in the comparator (`Header` outranks parts
at equal priority). -/
def headerRank : FilePartId → Nat
  | .Header => 1
  | .Part _ => 0

/-- The part number the comparator falls back to (`Header ↦ 0`). -/
def partNum : FilePartId → Nat
  | .Header => 0
  | .Part i => i

/-- `cmp_file_storage_part_normal` returns `Greater` exactly on the
lexicographic triple (priority, header flag, part number), each
component compared with "higher wins". -/
theorem cmp_normal_eq_gt_iff (a b : StorageFilePart) :
    cmp_file_storage_part_normal a b = .gt ↔
      (b.priority < a.priority ∨
        (a.priority = b.priority ∧
          (headerRank b.part_id < headerRank a.part_id ∨
            (headerRank a.part_id = headerRank b.part_id ∧
              partNum b.part_id < partNum a.part_id)))) := by
  rcases a with ⟨ai, ap, ar⟩
  rcases b with ⟨bi, bp, br⟩
  simp only [cmp_file_storage_part_normal]
  rcases ap with _ | i <;> rcases bp with _ | j <;>
    simp only [headerRank, partNum] <;>
    split_ifs <;>
    simp_all [Nat.compare_eq_gt] <;>
    omega

instance : IsTrans StorageFilePart queue_le where
  trans := by
    intro a b c h1 h2
    unfold queue_le at *
    simp only [ne_eq, cmp_normal_eq_gt_iff] at h1 h2 ⊢
    omega

instance : IsTotal StorageFilePart queue_le where
  total := by
    intro a b
    unfold queue_le
    simp only [ne_eq, cmp_normal_eq_gt_iff]
    omega

/-- A two-part file used to exhibit the queue order. -/
def c4File : Sender.ManagedFile :=
  { header :=
      { id := ⟨List.replicate 16 0⟩, name := [], date := 0,
        part_count := 2, size := 2, file_part_size := 1 }
    mode := .Contiguous
    state := [⟨.Part 0, 0⟩, ⟨.Part 1, 0⟩]
    dataBin := [1, 2]
    dataFolder := [] }

/-- Storage holding only `c4File`. -/
def c4Storage : SendingStorageManager :=
  { files := [(⟨List.replicate 16 0⟩, c4File)] }

/-- C4 counterexample: with two remaining parts of equal priority, the
session queue built by `DownlinkSession::new` places `Part(1)` *before*
`Part(0)` — the larger part index first — because
`cmp_file_storage_part_normal` ranks higher part numbers greater and
the queue is sorted descending; the claim's "smaller Part index first"
is refuted. -/
theorem c4_counterexample :
    (DownlinkSession.new c4Storage).parts_queue =
      [⟨⟨List.replicate 16 0⟩, .Part 1, 0⟩,
       ⟨⟨List.replicate 16 0⟩, .Part 0, 0⟩] ∧
    cmp_file_storage_part_normal
        ⟨⟨List.replicate 16 0⟩, .Part 0, 0⟩
        ⟨⟨List.replicate 16 0⟩, .Part 1, 0⟩ = .lt := by
  refine ⟨by decide, by decide⟩

/-- C4 (amended): the scheduling comparator compares priority first
(descending), then puts `Header` before every `Part` of equal priority,
and breaks remaining ties by part number *descending*: among equal
priority non-header items the item with the **larger** `Part` index is
placed (and hence emitted) first.  The session queue built by
`DownlinkSession::new` is exactly a permutation of the storage snapshot
sorted descending by this comparator. -/
theorem c4_cmp_normal_amended :
    (∀ a b : StorageFilePart, b.priority < a.priority →
      cmp_file_storage_part_normal a b = .gt) ∧
    (∀ a b : StorageFilePart, a.priority = b.priority →
      a.part_id = .Header → b.part_id ≠ .Header →
      cmp_file_storage_part_normal a b = .gt) ∧
    (∀ (a b : StorageFilePart) (i j : Nat), a.priority = b.priority →
      a.part_id = .Part i → b.part_id = .Part j → i < j →
      cmp_file_storage_part_normal a b = .lt) ∧
    (∀ sm : SendingStorageManager,
      ((DownlinkSession.new sm).parts_queue).Sorted queue_le ∧
      ((DownlinkSession.new sm).parts_queue).Perm
        (sm.iter_remaining_storage_file_parts)) := by
  refine ⟨?_, ?_, ?_, ?_⟩
  · intro a b h
    rw [cmp_normal_eq_gt_iff]
    omega
  · intro a b hpr ha hb
    rw [cmp_normal_eq_gt_iff, ha]
    rcases hp : b.part_id with _ | j
    · exact absurd hp hb
    · simp [headerRank]
      omega
  · intro a b i j hpr ha hb hij
    have : cmp_file_storage_part_normal b a = .gt := by
      rw [cmp_normal_eq_gt_iff, ha, hb]
      simp [headerRank, partNum]
      omega
    rcases a with ⟨af, ap, apr⟩
    rcases b with ⟨bf, bp, bpr⟩
    simp only at ha hb hpr
    subst ha hb hpr
    revert this
    simp only [cmp_file_storage_part_normal]
    split_ifs <;> simp_all [Nat.compare_eq_gt, Nat.compare_eq_lt] <;>
      omega
  · intro sm
    exact ⟨List.sorted_insertionSort queue_le _,
      List.perm_insertionSort queue_le _⟩

/-- C4 witness: the amended statement applied to concrete items and the
concrete storage. -/
theorem c4_cmp_normal_amended_witness :
    cmp_file_storage_part_normal
        ⟨⟨List.replicate 16 0⟩, .Part 0, 0⟩
        ⟨⟨List.replicate 16 0⟩, .Part 1, 0⟩ = .lt ∧
    ((DownlinkSession.new c4Storage).parts_queue).Sorted queue_le :=
  ⟨c4_cmp_normal_amended.2.2.1
      ⟨⟨List.replicate 16 0⟩, .Part 0, 0⟩
      ⟨⟨List.replicate 16 0⟩, .Part 1, 0⟩ 0 1 rfl rfl rfl
      (by norm_num),
   (c4_cmp_normal_amended.2.2.2 c4Storage).1⟩

/-- A one-part file whose single remaining part is perfectly emittable. -/
def c5File : Sender.ManagedFile :=
  { header :=
      { id := ⟨List.replicate 16 0⟩, name := [], date := 0,
        part_count := 1, size := 2, file_part_size := 2 }
    mode := .Contiguous
    state := [⟨.Part 0, 0⟩]
    dataBin := [7, 7]
    dataFolder := [] }

/-- Storage holding only `c5File`. -/
def c5Storage : SendingStorageManager :=
  { files := [(⟨List.replicate 16 0⟩, c5File)] }

/-- C5: with a snapshot queue of exactly one item whose file exists and
whose part is still in state (so `get_file_part` returns the chunk),
`next_chunk` returns `None`: popping the single item wraps the cursor
back to `start_index` and the loop bails out *before* attempting to
emit the popped item.  This contradicts the claim (and the session's
own stated purpose of sending all chunks): `None` must mean a full
cycle emitted nothing, yet here an emittable item exists. -/
theorem c5_next_chunk_code_bug :
    (DownlinkSession.new c5Storage).parts_queue =
      [⟨⟨List.replicate 16 0⟩, .Part 0, 0⟩] ∧
    c5File.get_file_part (.Part 0) =
      .ok (some (.Data ⟨⟨List.replicate 16 0⟩, 0, [7, 7]⟩)) ∧
    (DownlinkSession.next_chunk (DownlinkSession.new c5Storage)).1 =
      none := by
  refine ⟨by decide, by decide, by decide⟩

/-! ## The `FilePartId` order as propositions, with its discrete
successor — toolkit for the receiver's range coalescing. -/

/-- The `Ord` order on part ids as a proposition. -/
def pLE (a b : FilePartId) : Prop := FilePartId.le a b = true

/-- Strict version of `pLE`. -/
def pLT (a b : FilePartId) : Prop := pLE a b ∧ a ≠ b

instance : DecidableRel pLE := fun a b =>
  inferInstanceAs (Decidable (FilePartId.le a b = true))

instance : DecidableRel pLT := fun a b =>
  inferInstanceAs (Decidable (pLE a b ∧ a ≠ b))

instance : IsTrans FilePartId pLE where
  trans := fun _ _ _ => FilePartId.le_trans

instance : IsTotal FilePartId pLE where
  total := fun a b => FilePartId.le_total a b

instance : IsTrans FilePartId pLT where
  trans := by
    rintro a b c ⟨h1, h1'⟩ ⟨h2, h2'⟩
    refine ⟨FilePartId.le_trans h1 h2, ?_⟩
    rintro rfl
    exact h1' (FilePartId.le_antisymm h1 h2)

/-- The successor in the part-id order (`Header`, then `Part 0`,
`Part 1`, …). -/
def succPart : FilePartId → FilePartId
  | .Header => .Part 0
  | .Part i => .Part (i + 1)

/-- The predecessor in the part-id order, when one exists. -/
def belowPart : FilePartId → Option FilePartId
  | .Header => none
  | .Part 0 => some .Header
  | .Part (i + 1) => some (.Part i)

theorem pLE_refl (a : FilePartId) : pLE a a := FilePartId.le_refl a

theorem pLE_succPart_iff (q e : FilePartId) :
    pLE q (succPart e) ↔ pLE q e ∨ q = succPart e := by
  cases q <;> cases e <;>
    simp [pLE, succPart, FilePartId.le] <;> omega

theorem pLT_succPart (e : FilePartId) : pLT e (succPart e) := by
  cases e <;> simp [pLT, pLE, succPart, FilePartId.le]

theorem not_pLE_succPart (e : FilePartId) : ¬ pLE (succPart e) e := by
  cases e <;> simp [pLE, succPart, FilePartId.le]

theorem belowPart_eq_some_iff (y x : FilePartId) :
    belowPart y = some x ↔ y = succPart x := by
  cases y with
  | Header => cases x <;> simp [belowPart, succPart]
  | Part i =>
    cases i with
    | zero => cases x <;> simp [belowPart, succPart]
    | succ j =>
      cases x <;> simp [belowPart, succPart]

theorem pLT_iff_succPart_le (a b : FilePartId) :
    pLT a b ↔ pLE (succPart a) b := by
  cases a <;> cases b <;>
    simp [pLT, pLE, succPart, FilePartId.le] <;> omega

theorem not_pLE_of_pLT (a b : FilePartId) (h : pLT a b) : ¬ pLE b a := by
  rcases h with ⟨h1, h2⟩
  intro h3
  exact h2 (FilePartId.le_antisymm h1 h3)

theorem pLT_pLE_trans {a b c : FilePartId} (h1 : pLT a b) (h2 : pLE b c) :
    pLT a c := by
  constructor
  · exact FilePartId.le_trans h1.1 h2
  · intro he
    rw [← he] at h2
    exact not_pLE_of_pLT a b h1 h2

theorem pLE_pLT_trans {a b c : FilePartId} (h1 : pLE a b) (h2 : pLT b c) :
    pLT a c := by
  constructor
  · exact FilePartId.le_trans h1 h2.1
  · intro he
    rw [he] at h1
    exact not_pLE_of_pLT b c h2 h1

/-! ## Receiver confirmation coalescing (src/receiver/src/lib.rs,
`Reciever::iter_control_messages`) -/

namespace Reciever

/-- The extension test in the coalescing loop:
`end.unwrap().to_index() == part.to_index() - 1`, with the `u32`
subtraction wrapping (release semantics; `Part(0).to_index() - 1` wraps
to `u32::MAX`). -/
def prev_index_cond (e p : FilePartId) : Bool :=
  e.to_index == (p.to_index + 4294967295) % 4294967296

/-- The coalescing loop over the sorted part list, after the first
element has initialised `start`/`end` (both are `Some` from then on in
the source; the trailing push of the open range is the `[]` case). -/
def capture_ranges_loop :
    List FilePartId → FilePartId → FilePartId →
      List (FilePartId × FilePartId)
  | [], s, e => [(s, e)]
  | p :: rest, s, e =>
    if prev_index_cond e p then capture_ranges_loop rest s p
    else (s, e) :: capture_ranges_loop rest p p

/-- The whole coalescing pass: `start`/`end` are `None` only before the
first element, so the empty list yields no ranges. -/
def capture_ranges : List FilePartId → List (FilePartId × FilePartId)
  | [] => []
  | p :: rest => capture_ranges_loop rest p p

/-- The per-`file_id` body of `Reciever::iter_control_messages`: sort
the recorded part ids (`sort_unstable`, modelled by `insertionSort`
over the `Ord` order) and coalesce them into inclusive ranges. -/
def iter_control_messages_for_file (parts : List FilePartId) :
    List (FilePartId × FilePartId) :=
  capture_ranges (List.insertionSort pLE parts)

end Reciever

/-- A part id lies in an inclusive range pair. -/
def coveredBy (r : FilePartId × FilePartId) (q : FilePartId) : Prop :=
  pLE r.1 q ∧ pLE q r.2

instance : ∀ r q, Decidable (coveredBy r q) := fun r q =>
  inferInstanceAs (Decidable (pLE r.1 q ∧ pLE q r.2))

/-- On an ascending pair of part ids whose second component is a valid
`u32`, the wrapping extension test holds exactly for the direct
successor (`Header → Part 0`, `Part i → Part (i+1)`). -/
theorem prev_index_cond_iff (e p : FilePartId) (hle : pLE e p)
    (hwf : p.wf) : Reciever.prev_index_cond e p = true ↔ p = succPart e := by
  cases e <;> cases p <;>
    simp_all [Reciever.prev_index_cond, FilePartId.to_index, pLE,
      FilePartId.le, FilePartId.wf, succPart] <;>
    omega

/-- Coverage of the coalescing loop: starting from the open range
`(s, e)` with the remaining sorted tail `rest`, the emitted ranges cover
exactly the open range plus the tail elements. -/
theorem capture_ranges_loop_coverage (rest : List FilePartId) :
    ∀ s e : FilePartId, pLE s e → List.Chain pLE e rest →
    (∀ p ∈ rest, p.wf) →
    ∀ q, (∃ r ∈ Reciever.capture_ranges_loop rest s e, coveredBy r q) ↔
      coveredBy (s, e) q ∨ q ∈ rest := by
  induction rest with
  | nil =>
    intro s e hse _ _ q
    simp [Reciever.capture_ranges_loop]
  | cons p rest ih =>
    intro s e hse hchain hwf q
    have hep : pLE e p := (List.chain_cons.mp hchain).1
    have hchain' : List.Chain pLE p rest := (List.chain_cons.mp hchain).2
    have hwfp : p.wf := hwf p (List.mem_cons_self _ _)
    have hwf' : ∀ x ∈ rest, x.wf :=
      fun x hx => hwf x (List.mem_cons_of_mem _ hx)
    simp only [List.mem_cons]
    by_cases hc : Reciever.prev_index_cond e p
    · have hps : p = succPart e := (prev_index_cond_iff e p hep hwfp).mp hc
      subst hps
      have hsp : pLE s (succPart e) := FilePartId.le_trans hse hep
      rw [show Reciever.capture_ranges_loop (succPart e :: rest) s e =
        Reciever.capture_ranges_loop rest s (succPart e) from by
          simp [Reciever.capture_ranges_loop, hc]]
      rw [ih s (succPart e) hsp hchain' hwf' q]
      constructor
      · rintro (⟨h1, h2⟩ | h)
        · rcases (pLE_succPart_iff q e).mp h2 with h3 | h3
          · exact Or.inl ⟨h1, h3⟩
          · exact Or.inr (Or.inl h3)
        · exact Or.inr (Or.inr h)
      · rintro (⟨h1, h2⟩ | h | h)
        · exact Or.inl ⟨h1, (pLE_succPart_iff q e).mpr (Or.inl h2)⟩
        · subst h
          exact Or.inl ⟨hsp, pLE_refl _⟩
        · exact Or.inr h
    · rw [show Reciever.capture_ranges_loop (p :: rest) s e =
        (s, e) :: Reciever.capture_ranges_loop rest p p from by
          simp [Reciever.capture_ranges_loop, hc]]
      simp only [List.mem_cons, exists_eq_or_imp]
      rw [ih p p (pLE_refl p) hchain' hwf' q]
      constructor
      · rintro (h | ⟨h1, h2⟩ | h)
        · exact Or.inl h
        · exact Or.inr (Or.inl (FilePartId.le_antisymm h2 h1))
        · exact Or.inr (Or.inr h)
      · rintro (h | h | h)
        · exact Or.inl h
        · subst h
          exact Or.inr (Or.inl ⟨pLE_refl q, pLE_refl q⟩)
        · exact Or.inr (Or.inr h)

/-- Gap between successive emitted ranges: the next range begins
strictly above the successor of the previous range's end. -/
def rangeGap (r1 r2 : FilePartId × FilePartId) : Prop :=
  pLT (succPart r1.2) r2.1

theorem pLT_of_succ_lt_succ {a b : FilePartId}
    (h : pLT (succPart a) (succPart b)) : pLT a b := by
  rcases h with ⟨h1, h2⟩
  cases a <;> cases b <;>
    simp_all [pLE, pLT, succPart, FilePartId.le] <;> omega

/-- Shape of the coalescing loop on strictly ascending input: every
emitted range is well ordered and starts no earlier than `s`, and
successive ranges are separated by a genuine gap. -/
theorem capture_ranges_loop_shape (rest : List FilePartId) :
    ∀ s e : FilePartId, pLE s e → List.Chain pLT e rest →
    (∀ p ∈ rest, p.wf) →
    (∀ r ∈ Reciever.capture_ranges_loop rest s e,
      pLE s r.1 ∧ pLE r.1 r.2) ∧
    (Reciever.capture_ranges_loop rest s e).Pairwise rangeGap := by
  induction rest with
  | nil =>
    intro s e hse _ _
    refine ⟨?_, by simp [Reciever.capture_ranges_loop]⟩
    intro r hr
    simp only [Reciever.capture_ranges_loop, List.mem_singleton] at hr
    subst hr
    exact ⟨pLE_refl s, hse⟩
  | cons p rest ih =>
    intro s e hse hchain hwf
    have hep : pLT e p := (List.chain_cons.mp hchain).1
    have hchain' : List.Chain pLT p rest := (List.chain_cons.mp hchain).2
    have hwfp : p.wf := hwf p (List.mem_cons_self _ _)
    have hwf' : ∀ x ∈ rest, x.wf :=
      fun x hx => hwf x (List.mem_cons_of_mem _ hx)
    by_cases hc : Reciever.prev_index_cond e p
    · have hsp : pLE s p := FilePartId.le_trans hse hep.1
      rw [show Reciever.capture_ranges_loop (p :: rest) s e =
        Reciever.capture_ranges_loop rest s p from by
          simp [Reciever.capture_ranges_loop, hc]]
      exact ih s p hsp hchain' hwf'
    · have hgap : pLT (succPart e) p := by
        have hnsucc : p ≠ succPart e := by
          intro hps
          exact hc ((prev_index_cond_iff e p hep.1 hwfp).mpr hps)
        have hsle : pLE (succPart e) p := (pLT_iff_succPart_le e p).mp hep
        exact ⟨hsle, fun h => hnsucc h.symm⟩
      have hrec := ih p p (pLE_refl p) hchain' hwf'
      rw [show Reciever.capture_ranges_loop (p :: rest) s e =
        (s, e) :: Reciever.capture_ranges_loop rest p p from by
          simp [Reciever.capture_ranges_loop, hc]]
      constructor
      · intro r hr
        rcases List.mem_cons.mp hr with hr | hr
        · subst hr
          exact ⟨pLE_refl s, hse⟩
        · obtain ⟨h1, h2⟩ := hrec.1 r hr
          exact ⟨FilePartId.le_trans hse
            (FilePartId.le_trans hep.1 h1), h2⟩
      · refine List.pairwise_cons.mpr ⟨?_, hrec.2⟩
        intro r hr
        obtain ⟨h1, _⟩ := hrec.1 r hr
        exact pLT_pLE_trans hgap h1

/-! ## Claim C6 -/

/-- C6 counterexample: a reachable ledger list with a duplicate entry
(`Part(0)` recorded twice, e.g. the same chunk received twice between
drains) yields the ranges `(Part 0, Part 0)` and `(Part 0, Part 1)`,
which are neither pairwise disjoint (both cover `Part 0`) nor maximal. -/
theorem c6_counterexample :
    Reciever.iter_control_messages_for_file [.Part 0, .Part 0, .Part 1] =
      [(.Part 0, .Part 0), (.Part 0, .Part 1)] ∧
    coveredBy (.Part 0, .Part 0) (.Part 0) ∧
    coveredBy (.Part 0, .Part 1) (.Part 0) := by
  refine ⟨by decide, by decide, by decide⟩

/-- C6 (amended): for every per-file ledger list, the set of parts
covered by the yielded `ConfirmPart` ranges equals the set of parts
recorded in the ledger; when the recorded list has no duplicates (the
ledger may contain duplicates, from re-received chunks) the yielded
ranges are in addition pairwise disjoint and maximal (each is well
ordered, and neither the predecessor of its start nor the successor of
its end is a recorded part). -/
theorem c6_coalescing_amended :
    (∀ parts : List FilePartId, (∀ p ∈ parts, p.wf) →
      ∀ q, (∃ r ∈ Reciever.iter_control_messages_for_file parts,
        coveredBy r q) ↔ q ∈ parts) ∧
    (∀ parts : List FilePartId, (∀ p ∈ parts, p.wf) → parts.Nodup →
      (Reciever.iter_control_messages_for_file parts).Pairwise
        (fun r1 r2 => ∀ q, ¬(coveredBy r1 q ∧ coveredBy r2 q)) ∧
      (∀ r ∈ Reciever.iter_control_messages_for_file parts,
        pLE r.1 r.2 ∧
        (∀ x, belowPart r.1 = some x → x ∉ parts) ∧
        succPart r.2 ∉ parts)) := by
  have hcov : ∀ parts : List FilePartId, (∀ p ∈ parts, p.wf) →
      ∀ q, (∃ r ∈ Reciever.iter_control_messages_for_file parts,
        coveredBy r q) ↔ q ∈ parts := by
    intro parts hwf q
    unfold Reciever.iter_control_messages_for_file
    have hperm := List.perm_insertionSort pLE parts
    have hsorted := List.sorted_insertionSort pLE parts
    rcases hL : List.insertionSort pLE parts with _ | ⟨p, rest⟩
    · rw [hL] at hperm
      have : parts = [] := hperm.symm.eq_nil
      subst this
      simp [Reciever.capture_ranges]
    · rw [hL] at hperm hsorted
      have hchain : List.Chain pLE p rest :=
        List.chain_iff_pairwise.mpr hsorted
      have hwf' : ∀ x ∈ rest, x.wf := fun x hx =>
        hwf x (hperm.mem_iff.mp (List.mem_cons_of_mem _ hx))
      rw [show Reciever.capture_ranges (p :: rest) =
        Reciever.capture_ranges_loop rest p p from rfl]
      rw [capture_ranges_loop_coverage rest p p (pLE_refl p) hchain
        hwf' q]
      rw [← hperm.mem_iff (a := q), List.mem_cons]
      constructor
      · rintro (⟨h1, h2⟩ | h)
        · exact Or.inl (FilePartId.le_antisymm h2 h1)
        · exact Or.inr h
      · rintro (h | h)
        · subst h
          exact Or.inl ⟨pLE_refl q, pLE_refl q⟩
        · exact Or.inr h
  refine ⟨hcov, ?_⟩
  intro parts hwf hnd
  have hperm := List.perm_insertionSort pLE parts
  have hsorted := List.sorted_insertionSort pLE parts
  have hndL : (List.insertionSort pLE parts).Nodup :=
    hperm.symm.nodup hnd
  -- strict chain and the shape facts
  have hshape :
      (∀ r ∈ Reciever.iter_control_messages_for_file parts,
        pLE r.1 r.2) ∧
      (Reciever.iter_control_messages_for_file parts).Pairwise
        rangeGap := by
    unfold Reciever.iter_control_messages_for_file
    rcases hL : List.insertionSort pLE parts with _ | ⟨p, rest⟩
    · refine ⟨?_, by simp [Reciever.capture_ranges]⟩
      intro r hr
      simp [Reciever.capture_ranges] at hr
    · rw [hL] at hperm hsorted hndL
      have hstrict : List.Pairwise pLT (p :: rest) := by
        have := hsorted.and hndL
        exact this.imp (fun h => ⟨h.1, h.2⟩)
      have hchain : List.Chain pLT p rest :=
        List.chain_iff_pairwise.mpr hstrict
      have hwf' : ∀ x ∈ rest, x.wf := fun x hx =>
        hwf x (hperm.mem_iff.mp (List.mem_cons_of_mem _ hx))
      have := capture_ranges_loop_shape rest p p (pLE_refl p) hchain
        hwf'
      rw [show Reciever.capture_ranges (p :: rest) =
        Reciever.capture_ranges_loop rest p p from rfl]
      exact ⟨fun r hr => (this.1 r hr).2, this.2⟩
  have hcovp := hcov parts hwf
  constructor
  · -- pairwise disjointness from the gaps
    refine hshape.2.imp ?_
    intro r1 r2 hgap q ⟨hc1, hc2⟩
    have h1 : pLE q r1.2 := hc1.2
    have h2 : pLE r2.1 q := hc2.1
    have hlt : pLT r1.2 r2.1 := pLE_pLT_trans (pLT_succPart r1.2).1 hgap
    exact not_pLE_of_pLT r1.2 r2.1 hlt
      (FilePartId.le_trans h2 h1)
  · -- maximality of each range against the recorded set
    intro r hr
    have hsym : ∀ r1 ∈ Reciever.iter_control_messages_for_file parts,
        ∀ r2 ∈ Reciever.iter_control_messages_for_file parts,
        r1 ≠ r2 → rangeGap r1 r2 ∨ rangeGap r2 r1 := by
      have hpair : (Reciever.iter_control_messages_for_file
          parts).Pairwise
          (fun r1 r2 => rangeGap r1 r2 ∨ rangeGap r2 r1) :=
        hshape.2.imp Or.inl
      intro r1 h1 r2 h2 hne
      exact hpair.forall (fun a b h => h.symm) h1 h2 hne
    refine ⟨hshape.1 r hr, ?_, ?_⟩
    · intro x hx hmem
      have hsx : r.1 = succPart x := (belowPart_eq_some_iff r.1 x).mp hx
      obtain ⟨r', hr', hcov'⟩ := (hcovp x).mpr hmem
      by_cases hrr : r' = r
      · subst hrr
        have : pLE r'.1 x := hcov'.1
        rw [hsx] at this
        exact not_pLE_succPart x this
      · rcases hsym r hr r' hr' (fun h => hrr h.symm) with hg | hg
        · -- r before r': x < r.1 ≤ … < r'.1 ≤ x, contradiction
          have hxr1 : pLT x r.1 := by
            rw [hsx]
            exact pLT_succPart x
          have hxlt : pLT x r'.1 :=
            pLT_pLE_trans (pLT_pLE_trans hxr1 (hshape.1 r hr))
              (FilePartId.le_trans (pLT_succPart r.2).1 hg.1)
          exact not_pLE_of_pLT x r'.1 hxlt hcov'.1
        · -- r' before r: succ r'.2 < succ x, so r'.2 < x ≤ r'.2
          have : pLT (succPart r'.2) (succPart x) := by
            rw [← hsx]
            exact hg
          have hlt : pLT r'.2 x := pLT_of_succ_lt_succ this
          exact not_pLE_of_pLT r'.2 x hlt hcov'.2
    · intro hmem
      obtain ⟨r', hr', hcov'⟩ := (hcovp (succPart r.2)).mpr hmem
      by_cases hrr : r' = r
      · subst hrr
        exact not_pLE_succPart r'.2 hcov'.2
      · rcases hsym r hr r' hr' (fun h => hrr h.symm) with hg | hg
        · exact not_pLE_of_pLT (succPart r.2) r'.1 hg hcov'.1
        · -- succ r'.2 ≤ r.1 ≤ r.2 < succ r.2 ≤ r'.2, contradiction
          have : pLE (succPart r'.2) r'.2 :=
            FilePartId.le_trans hg.1
              (FilePartId.le_trans (hshape.1 r hr)
                (FilePartId.le_trans (pLT_succPart r.2).1 hcov'.2))
          exact not_pLE_succPart r'.2 this

/-- C6 witness: the amended statement applied to a concrete ledger
list. -/
theorem c6_coalescing_amended_witness :
    ((∃ r ∈ Reciever.iter_control_messages_for_file
        [.Part 2, .Part 0, .Part 5], coveredBy r (.Part 0)) ↔
      (FilePartId.Part 0) ∈
        [FilePartId.Part 2, .Part 0, .Part 5]) ∧
    (Reciever.iter_control_messages_for_file
        [.Part 2, .Part 0, .Part 5]).Pairwise
      (fun r1 r2 => ∀ q, ¬(coveredBy r1 q ∧ coveredBy r2 q)) :=
  ⟨c6_coalescing_amended.1 [.Part 2, .Part 0, .Part 5] (by decide)
      (.Part 0),
   (c6_coalescing_amended.2 [.Part 2, .Part 0, .Part 5] (by decide)
      (by decide)).1⟩

/-! ## Transport codec message types (src/common/src/chunks.rs,
src/common/src/control.rs, src/common/src/transport_packet.rs)

Byte streams are `List Nat`; a Rust `String` is modelled by its UTF-8
bytes; `uuid::Uuid` by its 16 raw bytes.  Well-formedness predicates
(`wf`) state exactly what the Rust types guarantee for free (lengths,
integer ranges, UTF-8 validity of `String`). -/

/-- `uuid::Uuid`, as its 16 raw bytes. -/
structure Uuid where
  bytes : List Nat
  deriving DecidableEq, Repr

/-- Typing guarantees of `uuid::Uuid`. -/
def Uuid.wf (u : Uuid) : Prop :=
  u.bytes.length = 16 ∧ ∀ b ∈ u.bytes, b < 256

/-- UTF-8 validity of a byte list, as checked by Rust's
`String::from_utf8` (std; not part of this repository). -/
def isValidUtf8 : List Nat → Bool
  | [] => true
  | b :: rest =>
    if b < 128 then isValidUtf8 rest
    else if b < 194 then false
    else if b < 224 then
      match rest with
      | b1 :: r => (decide (128 ≤ b1) && decide (b1 < 192)) &&
          isValidUtf8 r
      | [] => false
    else if b < 240 then
      match rest with
      | b1 :: b2 :: r =>
        (decide ((if b = 224 then 160 else 128) ≤ b1) &&
         decide (b1 < if b = 237 then 160 else 192) &&
         decide (128 ≤ b2) && decide (b2 < 192)) && isValidUtf8 r
      | _ => false
    else if b < 245 then
      match rest with
      | b1 :: b2 :: b3 :: r =>
        (decide ((if b = 240 then 144 else 128) ≤ b1) &&
         decide (b1 < if b = 244 then 144 else 192) &&
         decide (128 ≤ b2) && decide (b2 < 192) &&
         decide (128 ≤ b3) && decide (b3 < 192)) && isValidUtf8 r
      | _ => false
    else false

/-- `HeaderChunk` (chunks.rs): id, name, date, part count, size. -/
structure HeaderChunk where
  id : Uuid
  name : List Nat
  date : Int
  part_count : Nat
  size : Nat
  deriving DecidableEq, Repr

/-- `DataChunk` (chunks.rs): id, part index, payload bytes. -/
structure DataChunk where
  file_id : Uuid
  part : Nat
  data : List Nat
  deriving DecidableEq, Repr

/-- `ConfirmPart` (control.rs). -/
structure ConfirmPart where
  file_id : Uuid
  part_range : FilePartIdRangeInclusive
  deriving DecidableEq, Repr

/-- `DeleteFile` (control.rs). -/
structure DeleteFile where
  file_id : Uuid
  deriving DecidableEq, Repr

/-- `TransportPacketData` (transport_packet.rs): the four payload
variants with wire tags 0, 1, 128, 129. -/
inductive TransportPacketData where
  | HeaderChunk : HeaderChunk → TransportPacketData
  | DataChunk : DataChunk → TransportPacketData
  | AcknowledgementPacket : ConfirmPart → TransportPacketData
  | DeleteFile : DeleteFile → TransportPacketData
  deriving DecidableEq, Repr

/-- Typing guarantees of the Rust `HeaderChunk`. -/
def HeaderChunk.wf (h : HeaderChunk) : Prop :=
  h.id.wf ∧ (∀ b ∈ h.name, b < 256) ∧ isValidUtf8 h.name = true ∧
  -(2 ^ 63) ≤ h.date ∧ h.date < 2 ^ 63 ∧
  h.part_count < 2 ^ 32 ∧ h.size < 2 ^ 64

/-- Typing guarantees of the Rust `DataChunk`. -/
def DataChunk.wf (d : DataChunk) : Prop :=
  d.file_id.wf ∧ d.part < 2 ^ 32 ∧ (∀ b ∈ d.data, b < 256) ∧
  d.data.length < 2 ^ 32

/-- Typing guarantees of the Rust `ConfirmPart`. -/
def ConfirmPart.wf (c : ConfirmPart) : Prop :=
  c.file_id.wf ∧ c.part_range.«from».wf ∧ c.part_range.«to».wf

/-- Typing guarantees of the Rust `DeleteFile`. -/
def DeleteFile.wf (d : DeleteFile) : Prop := d.file_id.wf

/-- Typing guarantees of `TransportPacketData`. -/
def TransportPacketData.wf : TransportPacketData → Prop
  | .HeaderChunk h => h.wf
  | .DataChunk d => d.wf
  | .AcknowledgementPacket a => a.wf
  | .DeleteFile d => d.wf

/-- `ValidityCheck` for `HeaderChunk`: the name fits the `u16` length
prefix. -/
def HeaderChunk.is_valid (h : HeaderChunk) : Bool :=
  h.name.length ≤ 65535

/-- `ValidityCheck` for `DataChunk`: payload at most 1 MiB and a valid
part id. -/
def DataChunk.is_valid (d : DataChunk) : Bool :=
  decide (d.data.length ≤ 1048576) && (FilePartId.Part d.part).is_valid

/-- `ValidityCheck` for `ConfirmPart`. -/
def ConfirmPart.is_valid (c : ConfirmPart) : Bool :=
  c.part_range.is_valid

/-- `ValidityCheck` for `DeleteFile`. -/
def DeleteFile.is_valid (_ : DeleteFile) : Bool := true

/-- `ValidityCheck` for `TransportPacketData`. -/
def TransportPacketData.is_valid : TransportPacketData → Bool
  | .HeaderChunk h => h.is_valid
  | .DataChunk d => d.is_valid
  | .AcknowledgementPacket a => a.is_valid
  | .DeleteFile d => d.is_valid

/-! ## Binary serialization of the codec messages -/

/-- `HeaderChunk::serialize_to_stream`: 16-byte id, `u16` LE name
length (`name.len() as u16`), name bytes, `i64` LE date, `u32` LE part
count, `u64` LE size. -/
def HeaderChunk.serialize_to_stream (h : HeaderChunk) : List Nat :=
  h.id.bytes ++ natToLE 2 h.name.length ++ h.name ++
    intToLE 8 h.date ++ natToLE 4 h.part_count ++ natToLE 8 h.size

/-- `HeaderChunk::length_when_serialized`. -/
def HeaderChunk.length_when_serialized (h : HeaderChunk) : Nat :=
  16 + 2 + h.name.length + 8 + 4 + 8

/-- `DataChunk::serialize_to_stream`: 16-byte id, `u32` LE part index,
`u32` LE data length, data bytes. -/
def DataChunk.serialize_to_stream (d : DataChunk) : List Nat :=
  d.file_id.bytes ++ natToLE 4 d.part ++ natToLE 4 d.data.length ++
    d.data

/-- `DataChunk::length_when_serialized`. -/
def DataChunk.length_when_serialized (d : DataChunk) : Nat :=
  16 + 4 + 4 + d.data.length

/-- `ConfirmPart::serialize_to_stream`: 16-byte id, then the part range
(two big-endian `u32`s). -/
def ConfirmPart.serialize_to_stream (c : ConfirmPart) : List Nat :=
  c.file_id.bytes ++ c.part_range.serialize_to_stream

/-- `ConfirmPart::length_when_serialized`. -/
def ConfirmPart.length_when_serialized (_ : ConfirmPart) : Nat := 16 + 8

/-- `DeleteFile::serialize_to_stream`: the 16-byte id. -/
def DeleteFile.serialize_to_stream (d : DeleteFile) : List Nat :=
  d.file_id.bytes

/-- `DeleteFile::length_when_serialized`. -/
def DeleteFile.length_when_serialized (_ : DeleteFile) : Nat := 16

/-- `TransportPacketData::serialize_to_stream`: a tag byte then the
message's own serialization. -/
def TransportPacketData.serialize_to_stream :
    TransportPacketData → List Nat
  | .HeaderChunk h => 0 :: h.serialize_to_stream
  | .DataChunk d => 1 :: d.serialize_to_stream
  | .AcknowledgementPacket a => 128 :: a.serialize_to_stream
  | .DeleteFile d => 129 :: d.serialize_to_stream

/-- `TransportPacketData::length_when_serialized`: one tag byte plus
the inner length. -/
def TransportPacketData.length_when_serialized :
    TransportPacketData → Nat
  | .HeaderChunk h => 1 + h.length_when_serialized
  | .DataChunk d => 1 + d.length_when_serialized
  | .AcknowledgementPacket a => 1 + a.length_when_serialized
  | .DeleteFile d => 1 + d.length_when_serialized

/-! ## Deserialization as a stream computation

`ParseM α` consumes a byte list; on failure it returns the remaining
bytes at the failure point (so the surrounding packet parser knows how
far the substream advanced).  `read_exact` hitting end of input
consumes everything. -/

def ParseM (α : Type) : Type := List Nat → Except (List Nat) (α × List Nat)

/-- Sequencing of stream computations (the `?` operator). -/
def pbind {α β : Type} (m : ParseM α) (f : α → ParseM β) : ParseM β :=
  fun s =>
    match m s with
    | .error r => .error r
    | .ok (a, s') => f a s'

/-- `read_exact` into an `n`-byte buffer. -/
def readExact (n : Nat) : ParseM (List Nat) := fun s =>
  if n ≤ s.length then .ok (s.take n, s.drop n) else .error []

/-- An `InvalidData` failure at the current position. -/
def parseFail {α : Type} : ParseM α := fun s => .error s

/-- `HeaderChunk::deserialize_from_stream` (chunks.rs; no length cap on
the name in this revision, but the bytes must be valid UTF-8). -/
def HeaderChunk.deserialize_from_stream : ParseM HeaderChunk :=
  pbind (readExact 16) fun id_bytes =>
  pbind (readExact 2) fun name_len_bytes =>
  pbind (readExact (natFromLE name_len_bytes)) fun name =>
  fun s =>
    if isValidUtf8 name then
      (pbind (readExact 8) fun date_bytes =>
       pbind (readExact 4) fun part_count_bytes =>
       pbind (readExact 8) fun size_bytes =>
       fun s' => .ok
        ({ id := ⟨id_bytes⟩, name := name,
           date := intFromLE 8 date_bytes,
           part_count := natFromLE part_count_bytes,
           size := natFromLE size_bytes }, s')) s
    else .error s

/-- `DataChunk::deserialize_from_stream` (rejects a length field over
1 MiB before reading the data). -/
def DataChunk.deserialize_from_stream : ParseM DataChunk :=
  pbind (readExact 16) fun id_bytes =>
  pbind (readExact 4) fun part_bytes =>
  pbind (readExact 4) fun len_bytes =>
  fun s =>
    if natFromLE len_bytes > 1048576 then .error s
    else
      (pbind (readExact (natFromLE len_bytes)) fun data =>
       fun s' => .ok
        ({ file_id := ⟨id_bytes⟩, part := natFromLE part_bytes,
           data := data }, s')) s

/-- `ConfirmPart::deserialize_from_stream`. -/
def ConfirmPart.deserialize_from_stream : ParseM ConfirmPart :=
  pbind (readExact 16) fun id_bytes =>
  pbind (fun s =>
    match FilePartIdRangeInclusive.deserialize_from_stream s with
    | some (r, s') => Except.ok (r, s')
    | none => Except.error []) fun part_range =>
  fun s => .ok ({ file_id := ⟨id_bytes⟩, part_range := part_range }, s)

/-- `DeleteFile::deserialize_from_stream`. -/
def DeleteFile.deserialize_from_stream : ParseM DeleteFile :=
  pbind (readExact 16) fun id_bytes =>
  fun s => .ok ({ file_id := ⟨id_bytes⟩ }, s)

/-- `TransportPacketData::deserialize_from_stream`: dispatch on the tag
byte; an unknown tag is `InvalidData`. -/
def TransportPacketData.deserialize_from_stream :
    ParseM TransportPacketData :=
  pbind (readExact 1) fun type_buf =>
  if type_buf = [0] then
    pbind HeaderChunk.deserialize_from_stream fun h =>
      fun s => .ok (.HeaderChunk h, s)
  else if type_buf = [1] then
    pbind DataChunk.deserialize_from_stream fun d =>
      fun s => .ok (.DataChunk d, s)
  else if type_buf = [128] then
    pbind ConfirmPart.deserialize_from_stream fun a =>
      fun s => .ok (.AcknowledgementPacket a, s)
  else if type_buf = [129] then
    pbind DeleteFile.deserialize_from_stream fun d =>
      fun s => .ok (.DeleteFile d, s)
  else parseFail

/-! ## Scrambling (src/common/src/transport_packet/scrambling.rs) -/

/-- `ScramblingWriter`: each output byte is the running sum (mod 256) of
the input bytes so far. -/
def scramble : Nat → List Nat → List Nat
  | _, [] => []
  | cum, x :: xs => ((x + cum) % 256) :: scramble ((x + cum) % 256) xs

/-- `UnscramblingReader`: each output byte is the wrapping difference of
consecutive scrambled bytes. -/
def unscramble : Nat → List Nat → List Nat
  | _, [] => []
  | cum, c :: cs => ((c + 256 - cum % 256) % 256) :: unscramble c cs

theorem scramble_length (cum : Nat) (xs : List Nat) :
    (scramble cum xs).length = xs.length := by
  induction xs generalizing cum with
  | nil => rfl
  | cons x xs ih => simp [scramble, ih]

theorem unscramble_scramble (xs : List Nat) : ∀ cum : Nat, cum < 256 →
    (∀ b ∈ xs, b < 256) → unscramble cum (scramble cum xs) = xs := by
  induction xs with
  | nil => intro cum _ _; rfl
  | cons x xs ih =>
    intro cum hcum hb
    have hx : x < 256 := hb x (List.mem_cons_self _ _)
    simp only [scramble, unscramble]
    have h1 : ((x + cum) % 256 + 256 - cum % 256) % 256 = x := by omega
    rw [h1, ih _ (Nat.mod_lt _ (by norm_num))
      (fun b h => hb b (List.mem_cons_of_mem _ h))]

/-! ## Transport packet framing (transport_packet.rs)

The 64-bit checksum comes from the external `twox_hash` crate; both the
serializer's `ChunkedHasher` and the parser's direct `XxHash64` feed the
same un-scrambled payload bytes into the same streaming hash, so the
model abstracts the hash as a parameter `h : List Nat → Nat` applied to
the whole payload, reduced to a `u64`. -/

/-- The `u64` checksum of a payload under the abstract hash `h`. -/
def hashU64 (h : List Nat → Nat) (payload : List Nat) : Nat :=
  h payload % 18446744073709551616

/-- `TransportPacketInner::serialize_to_stream`: `u32` LE payload
length, scrambled payload, `u64` LE checksum of the un-scrambled
payload. -/
def TransportPacketInner.serialize_to_stream (h : List Nat → Nat)
    (d : TransportPacketData) : List Nat :=
  natToLE 4 d.length_when_serialized ++
    scramble 0 d.serialize_to_stream ++
    natToLE 8 (hashU64 h d.serialize_to_stream)

/-- `TransportPacketInner` 8 MiB payload cap (`MAX_DATA_LEN`). -/
def TransportPacketInner.MAX_DATA_LEN : Nat := 8388608

/-- `TransportPacket::serialize_to_stream`: the ASCII signature `LFTP`
then the inner packet. -/
def TransportPacket.serialize_to_stream (h : List Nat → Nat)
    (d : TransportPacketData) : List Nat :=
  [76, 70, 84, 80] ++ TransportPacketInner.serialize_to_stream h d

/-- `TransportPacket::is_valid` / `TransportPacketInner::is_valid`
combined: the payload is valid (which, by
`transportPacketData_length_le_max`, bounds the payload length by
8 MiB). -/
def TransportPacket.is_valid (d : TransportPacketData) : Bool :=
  d.is_valid

/-! ## Round-trip lemmas for the message codecs -/

theorem readExact_append (xs rest : List Nat) :
    readExact xs.length (xs ++ rest) = .ok (xs, rest) := by
  simp [readExact]

theorem readExact_append_of_length (n : Nat) (xs rest : List Nat)
    (h : xs.length = n) : readExact n (xs ++ rest) = .ok (xs, rest) := by
  subst h
  exact readExact_append xs rest

theorem readExact_one_cons (b : Nat) (s : List Nat) :
    readExact 1 (b :: s) = .ok ([b], s) := by
  simp [readExact]

theorem pbind_ok {α β : Type} (m : ParseM α) (f : α → ParseM β)
    (s s' : List Nat) (a : α) (h : m s = .ok (a, s')) :
    pbind m f s = f a s' := by
  simp [pbind, h]

theorem readBytesN_append_of_length (n : Nat) (xs rest : List Nat)
    (h : xs.length = n) : readBytesN n (xs ++ rest) = some (xs, rest) := by
  subst h
  exact readBytesN_append xs rest

/-- Byte-level round trip for part ranges (valid endpoints). -/
theorem range_deserialize_roundtrip
    (r : FilePartIdRangeInclusive) (hwf1 : r.«from».wf)
    (hwf2 : r.«to».wf) (hv1 : r.«from».is_valid = true)
    (hv2 : r.«to».is_valid = true) (rest : List Nat) :
    FilePartIdRangeInclusive.deserialize_from_stream
      (r.serialize_to_stream ++ rest) = some (r, rest) := by
  have hidx : ∀ p : FilePartId, p.wf → p.to_index < 256 ^ 4 := by
    intro p hp
    cases p with
    | Header => decide
    | Part i =>
      simp only [FilePartId.wf] at hp
      simpa [FilePartId.to_index, pow_256_eq] using hp
  unfold FilePartIdRangeInclusive.serialize_to_stream
    FilePartIdRangeInclusive.deserialize_from_stream
  rw [List.append_assoc]
  rw [readBytesN_append_of_length 4 _ _ (natToBE_length 4 _)]
  simp only [Option.some_bind]
  rw [readBytesN_append_of_length 4 _ _ (natToBE_length 4 _)]
  simp only [Option.some_bind]
  rw [natFromBE_natToBE 4 _ (hidx _ hwf1),
    natFromBE_natToBE 4 _ (hidx _ hwf2)]
  rw [from_index_to_index _ hv1, from_index_to_index _ hv2]

/-- Byte-level round trip for `HeaderChunk` (well-formed and valid). -/
theorem headerChunk_deserialize_roundtrip (hc : HeaderChunk)
    (hwf : hc.wf) (hv : hc.is_valid = true) (rest : List Nat) :
    HeaderChunk.deserialize_from_stream
      (hc.serialize_to_stream ++ rest) = .ok (hc, rest) := by
  obtain ⟨⟨hidlen, _⟩, hnb, hutf, hdlo, hdhi, hpc, hsz⟩ := hwf
  have hnl : hc.name.length ≤ 65535 := by
    simpa [HeaderChunk.is_valid] using hv
  unfold HeaderChunk.serialize_to_stream
    HeaderChunk.deserialize_from_stream
  rw [List.append_assoc, List.append_assoc, List.append_assoc,
    List.append_assoc, List.append_assoc]
  rw [pbind_ok _ _ _ _ _ (readExact_append_of_length 16 _ _ hidlen)]
  rw [pbind_ok _ _ _ _ _
    (readExact_append_of_length 2 _ _ (natToLE_length 2 _))]
  rw [natFromLE_natToLE 2 _ (by norm_num; omega)]
  rw [pbind_ok _ _ _ _ _ (readExact_append_of_length _ _ _ rfl)]
  rw [if_pos hutf]
  rw [pbind_ok _ _ _ _ _
    (readExact_append_of_length 8 _ _ (intToLE_length 8 _))]
  rw [pbind_ok _ _ _ _ _
    (readExact_append_of_length 4 _ _ (natToLE_length 4 _))]
  rw [pbind_ok _ _ _ _ _
    (readExact_append_of_length 8 _ _ (natToLE_length 8 _))]
  rw [intFromLE_intToLE 8 (by norm_num) _ (by norm_num; omega)
    (by norm_num; omega)]
  rw [natFromLE_natToLE 4 _ (by rw [pow_256_eq]; omega)]
  rw [natFromLE_natToLE 8 _ (by rw [pow_256_eq]; omega)]

/-- Byte-level round trip for `DataChunk`. -/
theorem dataChunk_deserialize_roundtrip (d : DataChunk) (hwf : d.wf)
    (hv : d.is_valid = true) (rest : List Nat) :
    DataChunk.deserialize_from_stream
      (d.serialize_to_stream ++ rest) = .ok (d, rest) := by
  obtain ⟨⟨hidlen, _⟩, hpart, hdb, hdlen⟩ := hwf
  have hlen : d.data.length ≤ 1048576 := by
    simp [DataChunk.is_valid] at hv
    exact hv.1
  unfold DataChunk.serialize_to_stream DataChunk.deserialize_from_stream
  simp only [List.append_assoc]
  rw [pbind_ok _ _ _ _ _ (readExact_append_of_length 16 _ _ hidlen)]
  rw [pbind_ok _ _ _ _ _
    (readExact_append_of_length 4 _ _ (natToLE_length 4 _))]
  rw [pbind_ok _ _ _ _ _
    (readExact_append_of_length 4 _ _ (natToLE_length 4 _))]
  rw [natFromLE_natToLE 4 _ (by rw [pow_256_eq]; omega)]
  rw [natFromLE_natToLE 4 _ (by rw [pow_256_eq]; omega)]
  rw [if_neg (by omega)]
  rw [pbind_ok _ _ _ _ _ (readExact_append_of_length _ _ _ rfl)]

/-- Byte-level round trip for `ConfirmPart`. -/
theorem confirmPart_deserialize_roundtrip (c : ConfirmPart) (hwf : c.wf)
    (hv : c.is_valid = true) (rest : List Nat) :
    ConfirmPart.deserialize_from_stream
      (c.serialize_to_stream ++ rest) = .ok (c, rest) := by
  obtain ⟨⟨hidlen, _⟩, hwf1, hwf2⟩ := hwf
  have hv' : c.part_range.is_valid = true := hv
  simp only [FilePartIdRangeInclusive.is_valid, Bool.and_eq_true] at hv'
  unfold ConfirmPart.serialize_to_stream
    ConfirmPart.deserialize_from_stream
  rw [List.append_assoc]
  rw [pbind_ok _ _ _ _ _ (readExact_append_of_length 16 _ _ hidlen)]
  rw [pbind_ok _ _ _ _ _ (by
    rw [range_deserialize_roundtrip c.part_range
      hwf1 hwf2 hv'.1.1 hv'.1.2 rest])]

/-- Byte-level round trip for `DeleteFile`. -/
theorem deleteFile_deserialize_roundtrip (d : DeleteFile) (hwf : d.wf)
    (rest : List Nat) :
    DeleteFile.deserialize_from_stream
      (d.serialize_to_stream ++ rest) = .ok (d, rest) := by
  obtain ⟨hidlen, _⟩ := hwf
  unfold DeleteFile.serialize_to_stream DeleteFile.deserialize_from_stream
  rw [pbind_ok _ _ _ _ _ (readExact_append_of_length 16 _ _ hidlen)]

/-- Byte-level round trip for `TransportPacketData`: deserializing the
serialization of a well-formed, valid payload returns that payload and
consumes exactly its bytes. -/
theorem transportPacketData_deserialize_roundtrip
    (d : TransportPacketData) (hwf : d.wf) (hv : d.is_valid = true)
    (rest : List Nat) :
    TransportPacketData.deserialize_from_stream
      (d.serialize_to_stream ++ rest) = .ok (d, rest) := by
  cases d with
  | HeaderChunk h =>
    unfold TransportPacketData.serialize_to_stream
      TransportPacketData.deserialize_from_stream
    rw [List.cons_append]
    rw [pbind_ok _ _ _ _ _ (readExact_one_cons 0 _)]
    rw [if_pos rfl]
    rw [pbind_ok _ _ _ _ _ (headerChunk_deserialize_roundtrip h hwf hv
      rest)]
  | DataChunk dc =>
    unfold TransportPacketData.serialize_to_stream
      TransportPacketData.deserialize_from_stream
    rw [List.cons_append]
    rw [pbind_ok _ _ _ _ _ (readExact_one_cons 1 _)]
    rw [if_neg (by decide), if_pos rfl]
    rw [pbind_ok _ _ _ _ _ (dataChunk_deserialize_roundtrip dc hwf hv
      rest)]
  | AcknowledgementPacket a =>
    unfold TransportPacketData.serialize_to_stream
      TransportPacketData.deserialize_from_stream
    rw [List.cons_append]
    rw [pbind_ok _ _ _ _ _ (readExact_one_cons 128 _)]
    rw [if_neg (by decide), if_neg (by decide), if_pos rfl]
    rw [pbind_ok _ _ _ _ _ (confirmPart_deserialize_roundtrip a hwf hv
      rest)]
  | DeleteFile df =>
    unfold TransportPacketData.serialize_to_stream
      TransportPacketData.deserialize_from_stream
    rw [List.cons_append]
    rw [pbind_ok _ _ _ _ _ (readExact_one_cons 129 _)]
    rw [if_neg (by decide), if_neg (by decide), if_neg (by decide),
      if_pos rfl]
    rw [pbind_ok _ _ _ _ _ (deleteFile_deserialize_roundtrip df hwf
      rest)]

/-- The serialized byte count equals `length_when_serialized` (for
well-formed payloads, whose ids are 16 bytes). -/
theorem transportPacketData_serialize_length (d : TransportPacketData)
    (hwf : d.wf) :
    (d.serialize_to_stream).length = d.length_when_serialized := by
  cases d with
  | HeaderChunk h =>
    obtain ⟨⟨hidlen, _⟩, _⟩ := hwf
    simp [TransportPacketData.serialize_to_stream,
      TransportPacketData.length_when_serialized,
      HeaderChunk.serialize_to_stream,
      HeaderChunk.length_when_serialized, hidlen, natToLE_length,
      intToLE_length]
    omega
  | DataChunk dc =>
    obtain ⟨⟨hidlen, _⟩, _⟩ := hwf
    simp [TransportPacketData.serialize_to_stream,
      TransportPacketData.length_when_serialized,
      DataChunk.serialize_to_stream, DataChunk.length_when_serialized,
      hidlen, natToLE_length]
    omega
  | AcknowledgementPacket a =>
    obtain ⟨⟨hidlen, _⟩, _⟩ := hwf
    simp [TransportPacketData.serialize_to_stream,
      TransportPacketData.length_when_serialized,
      ConfirmPart.serialize_to_stream,
      ConfirmPart.length_when_serialized,
      FilePartIdRangeInclusive.serialize_to_stream, hidlen,
      natToBE_length]
  | DeleteFile df =>
    obtain ⟨hidlen, _⟩ := hwf
    simp [TransportPacketData.serialize_to_stream,
      TransportPacketData.length_when_serialized,
      DeleteFile.serialize_to_stream,
      DeleteFile.length_when_serialized, hidlen]

/-- A valid payload serializes to at most 8 MiB. -/
theorem transportPacketData_length_le_max (d : TransportPacketData)
    (hv : d.is_valid = true) :
    d.length_when_serialized ≤ TransportPacketInner.MAX_DATA_LEN := by
  unfold TransportPacketInner.MAX_DATA_LEN
  cases d with
  | HeaderChunk h =>
    have : h.name.length ≤ 65535 := by
      simpa [HeaderChunk.is_valid, TransportPacketData.is_valid]
        using hv
    simp [TransportPacketData.length_when_serialized,
      HeaderChunk.length_when_serialized]
    omega
  | DataChunk dc =>
    have : dc.data.length ≤ 1048576 := by
      simp [DataChunk.is_valid, TransportPacketData.is_valid] at hv
      exact hv.1
    simp [TransportPacketData.length_when_serialized,
      DataChunk.length_when_serialized]
    omega
  | AcknowledgementPacket a =>
    simp [TransportPacketData.length_when_serialized,
      ConfirmPart.length_when_serialized]
  | DeleteFile df =>
    simp [TransportPacketData.length_when_serialized,
      DeleteFile.length_when_serialized]

/-- Every serialized payload byte is a byte value (< 256) for
well-formed payloads. -/
theorem transportPacketData_serialize_lt (d : TransportPacketData)
    (hwf : d.wf) : ∀ b ∈ d.serialize_to_stream, b < 256 := by
  cases d with
  | HeaderChunk h =>
    obtain ⟨⟨_, hid⟩, hnb, _⟩ := hwf
    intro b hb
    simp only [TransportPacketData.serialize_to_stream,
      HeaderChunk.serialize_to_stream, List.mem_cons,
      List.mem_append] at hb
    rcases hb with rfl | ((((h1 | h1) | h1) | h1) | h1) | h1
    · norm_num
    · exact hid b h1
    · exact natToLE_lt 2 _ b h1
    · exact hnb b h1
    · exact intToLE_lt 8 _ b h1
    · exact natToLE_lt 4 _ b h1
    · exact natToLE_lt 8 _ b h1
  | DataChunk dc =>
    obtain ⟨⟨_, hid⟩, _, hdb, _⟩ := hwf
    intro b hb
    simp only [TransportPacketData.serialize_to_stream,
      DataChunk.serialize_to_stream, List.mem_cons,
      List.mem_append] at hb
    rcases hb with rfl | ((h1 | h1) | h1) | h1
    · norm_num
    · exact hid b h1
    · exact natToLE_lt 4 _ b h1
    · exact natToLE_lt 4 _ b h1
    · exact hdb b h1
  | AcknowledgementPacket a =>
    obtain ⟨⟨_, hid⟩, _, _⟩ := hwf
    intro b hb
    simp only [TransportPacketData.serialize_to_stream,
      ConfirmPart.serialize_to_stream,
      FilePartIdRangeInclusive.serialize_to_stream, List.mem_cons,
      List.mem_append] at hb
    rcases hb with rfl | h1 | h1 | h1
    · norm_num
    · exact hid b h1
    · exact natToBE_lt 4 _ b h1
    · exact natToBE_lt 4 _ b h1
  | DeleteFile df =>
    obtain ⟨_, hid⟩ := hwf
    intro b hb
    simp only [TransportPacketData.serialize_to_stream,
      DeleteFile.serialize_to_stream, List.mem_cons] at hb
    rcases hb with rfl | h1
    · norm_num
    · exact hid b h1

/-! ## Tolerant streaming parser
(src/common/src/transport_packet/tolerant_parser.rs)

The checkpoint stream over an in-memory byte list reduces to two
positions: the current read position `pos` and the last committed
(checkpointed) position; `rollback` returns to the committed position.
The parser is generic in the payload deserializer (`T: BinarySerialize`
in the source) and in the checksum function. -/

/-- `index_of_signature`'s scan loop (`while i < buf.len() - 3`). -/
def idxSigAux : List Nat → Nat → Option Nat
  | a :: b :: c :: d :: rest, i =>
    if a = 76 ∧ b = 70 ∧ c = 84 ∧ d = 80 then some i
    else idxSigAux (b :: c :: d :: rest) (i + 1)
  | _, _ => none

/-- `index_of_signature`: position of `LFTP` in the scratch buffer;
buffers shorter than 6 bytes are never searched. -/
def index_of_signature (buf : List Nat) : Option Nat :=
  if buf.length < 6 then none else idxSigAux buf 0

/-- Result of the signature search. -/
inductive SearchSignatureStatus where
  | Found : Nat → Nat → SearchSignatureStatus
  | Eof : SearchSignatureStatus
  deriving DecidableEq, Repr

/-- `parse_until_signature`: repeatedly read up to 256 bytes; fewer
than 4 readable bytes is end of stream; on a match, roll back to the
`L`; otherwise roll back 3 bytes and scan on.  `Found p c` carries the
match position and the commit made at the top of the last loop
iteration.  `fuel` bounds the loop (each iteration consumes at least
one byte, so `input.length + 1` always suffices). -/
def parse_until_signature (fuel : Nat) (input : List Nat) (pos : Nat) :
    SearchSignatureStatus :=
  match fuel with
  | 0 => .Eof
  | fuel + 1 =>
    let read := min 256 (input.length - pos)
    if read < 4 then .Eof
    else
      match index_of_signature ((input.drop pos).take 256) with
      | some idx => .Found (pos + idx) pos
      | none => parse_until_signature fuel input (pos + read - 3)

/-- Result of `parse_next_packet`, with the final read position and
committed checkpoint.  `ioErr` is the outer `Err` (always
`UnexpectedEof` or `InvalidData` over an in-memory stream, so always
recoverable); `dataErr` is the inner `Ok(Err(_))` (payload
deserialization failure or length mismatch). -/
inductive NextPacketResult (α : Type) where
  | ioErr : Nat → Nat → NextPacketResult α
  | dataErr : Nat → Nat → NextPacketResult α
  | parsed : α → Nat → Nat → NextPacketResult α
  deriving Repr, DecidableEq

/-- `parse_next_packet`, entered at a signature position `p` (the outer
loop has just checkpointed there): read the 4-byte signature and
checkpoint; read the 4-byte length and reject oversized claims; read
and unscramble the payload while hashing it and compare with the
trailing 8-byte checksum; roll back and re-read the payload through a
length-capped substream for the structural decode; finally skip the
checksum, checkpoint, and check the substream was exhausted. -/
def parse_next_packet (h : List Nat → Nat) (deser : ParseM α)
    (input : List Nat) (p : Nat) : NextPacketResult α :=
  if p + 4 > input.length then .ioErr input.length p
  else
    if p + 8 > input.length then .ioErr input.length (p + 4)
    else
      let length := natFromLE ((input.drop (p + 4)).take 4)
      if length > TransportPacketInner.MAX_DATA_LEN then
        .ioErr (p + 8) (p + 4)
      else
        if p + 8 + length + 8 > input.length then
          .ioErr input.length (p + 8)
        else
          let payload := unscramble 0 ((input.drop (p + 8)).take length)
          let hashv := natFromLE ((input.drop (p + 8 + length)).take 8)
          if hashv ≠ hashU64 h payload then
            .ioErr (p + 8 + length + 8) (p + 8)
          else
            match deser payload with
            | .ok (v, restL) =>
              let consumed := length - restL.length
              if restL.isEmpty then
                .parsed v (p + 8 + consumed + 8) (p + 8 + consumed + 8)
              else .dataErr (p + 8 + consumed + 8) (p + 8 + consumed + 8)
            | .error restL =>
              let consumed := length - restL.length
              .dataErr (p + 8 + consumed + 8) (p + 8 + consumed + 8)

/-- One iteration of the emission loop of
`parse_transport_packet_stream`: search for the signature, checkpoint
at it, attempt a packet; errors roll back to the last checkpoint and
continue scanning from there. -/
inductive IterationResult (α : Type) where
  | yield : α → Nat → IterationResult α
  | cont : Nat → IterationResult α
  | eofEnd : IterationResult α
  deriving Repr, DecidableEq

/-- One iteration of the emission loop. -/
def parse_iteration (h : List Nat → Nat) (deser : ParseM α)
    (input : List Nat) (pos : Nat) : IterationResult α :=
  match parse_until_signature (input.length + 1) input pos with
  | .Eof => .eofEnd
  | .Found sigPos _ =>
    match parse_next_packet h deser input sigPos with
    | .ioErr _ committed => .cont committed
    | .dataErr _ committed => .cont committed
    | .parsed v pos' _ => .yield v pos'

/-- The first item yielded by `parse_transport_packet_stream`, if any;
`fuel` bounds the number of loop iterations (every rejected attempt
commits at least 4 bytes past the failed signature, so
`input.length + 1` iterations always suffice). -/
def parse_first_aux (h : List Nat → Nat) (deser : ParseM α)
    (input : List Nat) : Nat → Nat → Option α
  | 0, _ => none
  | fuel + 1, pos =>
    match parse_iteration h deser input pos with
    | .eofEnd => none
    | .yield v _ => some v
    | .cont pos' => parse_first_aux h deser input fuel pos'

/-- The first item yielded by `parse_transport_packet_stream` on the
given input. -/
def parse_transport_packet_stream_first (h : List Nat → Nat)
    (deser : ParseM α) (input : List Nat) : Option α :=
  parse_first_aux h deser input (input.length + 1) 0


/-! ## Claim C1 -/

theorem drop_append_len (l1 l2 : List Nat) (n : Nat)
    (h : l1.length = n) : (l1 ++ l2).drop n = l2 := by
  subst h
  exact List.drop_left l1 l2

theorem take_append_len (l1 l2 : List Nat) (n : Nat)
    (h : l1.length = n) : (l1 ++ l2).take n = l1 := by
  subst h
  exact List.take_left l1 l2

/-- On an input that begins with the signature and has at least two
more bytes, the signature search finds position 0 immediately. -/
theorem parse_until_signature_at_sig (tail : List Nat)
    (htail : 2 ≤ tail.length) (fuel : Nat) (hfuel : 1 ≤ fuel) :
    parse_until_signature fuel (76 :: 70 :: 84 :: 80 :: tail) 0 =
      .Found 0 0 := by
  obtain ⟨f, rfl⟩ : ∃ f, fuel = f + 1 := ⟨fuel - 1, by omega⟩
  simp only [parse_until_signature]
  rw [if_neg (by simp only [List.length_cons, Nat.sub_zero]; omega)]
  have hbuf : ((76 :: 70 :: 84 :: 80 :: tail).drop 0).take 256 =
      [76, 70, 84, 80] ++ tail.take 252 := by
    simp [List.take_succ_cons]
  rw [hbuf]
  have hidx : index_of_signature ([76, 70, 84, 80] ++ tail.take 252) =
      some 0 := by
    unfold index_of_signature
    rw [if_neg (by simp [List.length_append, List.length_take]; omega)]
    simp [idxSigAux]
  rw [hidx]

/-- `parse_next_packet` on a freshly serialized packet at position 0:
the length check, checksum and structural decode all pass, the
substream is exhausted, and the packet is yielded with the stream
committed exactly past the packet. -/
theorem parse_next_packet_serialize (h : List Nat → Nat)
    (d : TransportPacketData) (hwf : d.wf) (hv : d.is_valid = true) :
    parse_next_packet h TransportPacketData.deserialize_from_stream
        (TransportPacket.serialize_to_stream h d) 0 =
      .parsed d (16 + d.length_when_serialized)
        (16 + d.length_when_serialized) := by
  have hplen := transportPacketData_serialize_length d hwf
  have hmax := transportPacketData_length_le_max d hv
  unfold TransportPacketInner.MAX_DATA_LEN at hmax
  have hbytes := transportPacketData_serialize_lt d hwf
  have hlen : (TransportPacket.serialize_to_stream h d).length =
      16 + d.length_when_serialized := by
    simp [TransportPacket.serialize_to_stream,
      TransportPacketInner.serialize_to_stream, natToLE_length,
      scramble_length, hplen]
    omega
  have hL32 : d.length_when_serialized < 256 ^ 4 := by
    rw [pow_256_eq]
    omega
  have hslice4 :
      ((TransportPacket.serialize_to_stream h d).drop 4).take 4 =
        natToLE 4 d.length_when_serialized := by
    have hre1 : TransportPacket.serialize_to_stream h d =
        [76, 70, 84, 80] ++
          (natToLE 4 d.length_when_serialized ++
            (scramble 0 d.serialize_to_stream ++
              natToLE 8 (hashU64 h d.serialize_to_stream))) := by
      simp [TransportPacket.serialize_to_stream,
        TransportPacketInner.serialize_to_stream, List.append_assoc]
    rw [hre1, drop_append_len [76, 70, 84, 80] _ 4 (by simp),
      take_append_len _ _ 4 (natToLE_length 4 _)]
  have hsliceL :
      ((TransportPacket.serialize_to_stream h d).drop 8).take
          d.length_when_serialized =
        scramble 0 d.serialize_to_stream := by
    have hre2 : TransportPacket.serialize_to_stream h d =
        ([76, 70, 84, 80] ++ natToLE 4 d.length_when_serialized) ++
          (scramble 0 d.serialize_to_stream ++
            natToLE 8 (hashU64 h d.serialize_to_stream)) := by
      simp [TransportPacket.serialize_to_stream,
        TransportPacketInner.serialize_to_stream, List.append_assoc]
    rw [hre2, drop_append_len _ _ 8 (by simp [natToLE_length])]
    rw [take_append_len _ _ _ (by rw [scramble_length]; exact hplen)]
  have hslice8 :
      ((TransportPacket.serialize_to_stream h d).drop
          (8 + d.length_when_serialized)).take 8 =
        natToLE 8 (hashU64 h d.serialize_to_stream) := by
    have hre3 : TransportPacket.serialize_to_stream h d =
        ([76, 70, 84, 80] ++ natToLE 4 d.length_when_serialized ++
            scramble 0 d.serialize_to_stream) ++
          natToLE 8 (hashU64 h d.serialize_to_stream) := by
      simp [TransportPacket.serialize_to_stream,
        TransportPacketInner.serialize_to_stream, List.append_assoc]
    rw [hre3, drop_append_len _ _ (8 + d.length_when_serialized)
      (by simp [natToLE_length, scramble_length, hplen]; omega)]
    exact List.take_of_length_le (by simp [natToLE_length])
  have hunscr : unscramble 0 (scramble 0 d.serialize_to_stream) =
      d.serialize_to_stream :=
    unscramble_scramble _ 0 (by norm_num) hbytes
  have hhash : natFromLE (natToLE 8 (hashU64 h d.serialize_to_stream)) =
      hashU64 h d.serialize_to_stream :=
    natFromLE_natToLE 8 _ (by
      rw [pow_256_eq]
      exact Nat.mod_lt _ (by norm_num))
  have hdeser : TransportPacketData.deserialize_from_stream
      d.serialize_to_stream = .ok (d, []) := by
    have := transportPacketData_deserialize_roundtrip d hwf hv []
    rwa [List.append_nil] at this
  simp only [parse_next_packet, Nat.zero_add, hlen,
    TransportPacketInner.MAX_DATA_LEN, hslice4,
    natFromLE_natToLE 4 _ hL32, hsliceL, hunscr, hslice8, hhash]
  rw [if_neg (by omega)]
  rw [if_neg (by omega)]
  rw [if_neg (by omega)]
  rw [if_neg (by omega)]
  rw [if_neg (by simp)]
  rw [hdeser]
  simp
  omega

/-- C1: serializing any transport packet whose payload is well formed
(the Rust typing guarantees) and valid (`ValidityCheck`, which bounds
the serialized payload by 8 MiB) and feeding the bytes to the tolerant
stream parser yields, as the first parsed item, exactly the packet's
payload data — for any checksum function both endpoints share. -/
theorem c1_serialize_parse_roundtrip (h : List Nat → Nat)
    (d : TransportPacketData) (hwf : d.wf) (hv : d.is_valid = true) :
    parse_transport_packet_stream_first h
        TransportPacketData.deserialize_from_stream
        (TransportPacket.serialize_to_stream h d) = some d := by
  have hform : TransportPacket.serialize_to_stream h d =
      76 :: 70 :: 84 :: 80 ::
        TransportPacketInner.serialize_to_stream h d := by
    simp [TransportPacket.serialize_to_stream]
  have htail : 2 ≤ (TransportPacketInner.serialize_to_stream h d).length := by
    simp [TransportPacketInner.serialize_to_stream, natToLE_length,
      scramble_length]
    omega
  have hsig : parse_until_signature
      ((TransportPacket.serialize_to_stream h d).length + 1)
      (TransportPacket.serialize_to_stream h d) 0 = .Found 0 0 := by
    rw [hform]
    exact parse_until_signature_at_sig _ htail _ (by omega)
  unfold parse_transport_packet_stream_first
  simp only [parse_first_aux, parse_iteration, hsig,
    parse_next_packet_serialize h d hwf hv]

/-- C1 witness: the round trip at a concrete `DeleteFile` packet with
the zero checksum function. -/
theorem c1_serialize_parse_roundtrip_witness :
    parse_transport_packet_stream_first (fun _ => 0)
        TransportPacketData.deserialize_from_stream
        (TransportPacket.serialize_to_stream (fun _ => 0)
          (.DeleteFile ⟨⟨List.replicate 16 0⟩⟩)) =
      some (.DeleteFile ⟨⟨List.replicate 16 0⟩⟩) :=
  c1_serialize_parse_roundtrip (fun _ => 0)
    (.DeleteFile ⟨⟨List.replicate 16 0⟩⟩)
    ⟨by decide, by decide⟩ (by decide)

/-! ## Claim C9 -/

/-- A false signature followed by a length field claiming more than
8 MiB. -/
def c9Input : List Nat := [76, 70, 84, 80, 1, 0, 128, 0]

/-- C9 counterexample: on a stream whose `LFTP` at position 0 is
followed by the length 8388609 (> 8 MiB), the parser rejects and
resumes scanning at position 4 — just past the 4-byte signature — not
at "checkpoint + 1" = position 1 as the claim states. -/
theorem c9_counterexample :
    parse_iteration (fun _ => 0)
        TransportPacketData.deserialize_from_stream c9Input 0 =
      .cont 4 ∧ (4 : Nat) ≠ 0 + 1 := by
  refine ⟨by decide, by decide⟩

/-- C9 (amended): when the tolerant parser finds an `LFTP` signature at
position `p` and the following 4-byte length field exceeds 8 MiB, the
attempt fails with a recoverable `InvalidData` error whose checkpoint
is `p + 4` (taken just after the signature was read), so the iterator
is not terminated: the loop continues scanning from `p + 4` — four
bytes past the signature start, not one — and the same false signature
can never be matched again. -/
theorem c9_oversize_reject_amended (h : List Nat → Nat) {α : Type}
    (deser : ParseM α) (input : List Nat) (p pos c : Nat)
    (hsig : parse_until_signature (input.length + 1) input pos =
      .Found p c)
    (hlen8 : p + 8 ≤ input.length)
    (hbig : natFromLE ((input.drop (p + 4)).take 4) > 8388608) :
    parse_next_packet h deser input p = .ioErr (p + 8) (p + 4) ∧
    parse_iteration h deser input pos = .cont (p + 4) ∧
    p + 4 > p := by
  have hnext : parse_next_packet h deser input p =
      .ioErr (p + 8) (p + 4) := by
    unfold parse_next_packet
    rw [if_neg (by omega), if_neg (by omega)]
    rw [if_pos (by
      simp only [TransportPacketInner.MAX_DATA_LEN]
      exact hbig)]
  refine ⟨hnext, ?_, by omega⟩
  simp only [parse_iteration, hsig, hnext]

/-- C9 witness: the amended statement applied to the concrete
8-byte stream with an oversized length field. -/
theorem c9_oversize_reject_amended_witness :
    parse_next_packet (fun _ => 0)
        TransportPacketData.deserialize_from_stream c9Input 0 =
      .ioErr 8 4 ∧
    parse_iteration (fun _ => 0)
        TransportPacketData.deserialize_from_stream c9Input 0 =
      .cont 4 ∧
    (0 : Nat) + 4 > 0 :=
  c9_oversize_reject_amended (fun _ => 0)
    TransportPacketData.deserialize_from_stream c9Input 0 0 0
    (by decide) (by decide) (by decide)
